import Mathlib

/-!
# Verification of the rust-code-analysis space/metric engine

This file is a shallow embedding, in Lean 4, of the space-extraction and
metric-aggregation core of the `rust-code-analysis` repository:

* `src/spaces.rs` — `SpaceKind`, `CodeMetrics`, `FuncSpace`, the iterative
  `metrics` traversal with its explicit node stack and open-scope stack,
  `finalize`, `compute_halstead_and_mi`, `ChosenMetrics`;
* `src/metrics/nexits.rs` — the exit-point `Stats` accumulator;
* `src/ops.rs` — the operand/operator collector twin (`Ops`,
  `operands_and_operators`).

Rust data is modelled as follows: `usize` counters become `Nat`; Rust
`String`s are modelled by their UTF-8 byte sequences (`List Nat`); fallible
steps (`unwrap` panics) are modelled with `Except String`; the `f64` values
produced by the average computations are modelled by `FVal`, a type of
exact rationals extended with NaN and the two infinities, with IEEE-754
division-by-zero behaviour (the only floating-point facts the development
relies on are exact at the inputs used: quotients of small naturals).

Metric accumulators whose defining files are not part of the sources at
hand (line counts, function counts, argument counts, Halstead stats,
maintainability) are modelled from the specification; each such definition
carries a doc comment starting with `Modelled from the spec:`.

The per-language classification and metric hooks are external collaborators
of the core; they are modelled as an explicit `Adapter` record of functions
over syntax nodes, and all theorems are parametric in the adapter.
-/

/-- Syntax-tree node as seen by the traversal: tree-sitter exposes a kind
identifier, the start/end row of the node's span, and the ordered list of
children (`child_count` is the length of that list). -/
inductive TSNode where
  | mk (kindId : Nat) (startRow : Nat) (endRow : Nat) (children : List TSNode)

/-- Kind identifier of a node. -/
def TSNode.kindId : TSNode → Nat
  | .mk k _ _ _ => k

/-- `start_position().row` of a node. -/
def TSNode.startRow : TSNode → Nat
  | .mk _ s _ _ => s

/-- `end_position().row` of a node. -/
def TSNode.endRow : TSNode → Nat
  | .mk _ _ e _ => e

/-- Ordered children of a node. -/
def TSNode.children : TSNode → List TSNode
  | .mk _ _ _ cs => cs

/-- `child_count()` of a node. -/
def TSNode.childCount (t : TSNode) : Nat := t.children.length

mutual

/-- Number of nodes in a subtree (used as the traversal's termination
measure). -/
def TSNode.size : TSNode → Nat
  | .mk _ _ _ cs => 1 + TSNode.sizeForest cs

/-- Number of nodes in a forest. -/
def TSNode.sizeForest : List TSNode → Nat
  | [] => 0
  | t :: ts => TSNode.size t + TSNode.sizeForest ts

end

/-- Rust `String`s / `&str` are modelled by their UTF-8 byte sequences. -/
def ByteStr : Type := List Nat
deriving DecidableEq, Repr

/-- Model of the `f64` values produced by the metric averages: an exact
rational together with NaN and the two infinities.  Only quotients of
natural numbers arise in the claims, and those are exact in `f64` at every
input used, so the rational component is faithful there. -/
inductive FVal where
  | fin (q : ℚ)
  | nan
  | inf
  | ninf
deriving DecidableEq, Repr

/-- IEEE-754 division on `FVal` restricted to the shapes the code produces:
a finite numerator divided by a finite denominator.  `x / 0` is NaN when
`x = 0` and a signed infinity otherwise. -/
def FVal.div : FVal → FVal → FVal
  | .fin a, .fin b =>
    if b = 0 then
      if a = 0 then .nan else if a > 0 then .inf else .ninf
    else .fin (a / b)
  | _, _ => .nan

/-- The list of supported space kinds (`SpaceKind` in `spaces.rs`). -/
inductive SpaceKind where
  | Unknown
  | Function
  | Class
  | Struct
  | Trait
  | Impl
  | Unit
  | Namespace
deriving DecidableEq, Repr

namespace exit

/-- The `NExit` metric state from `src/metrics/nexits.rs`: exit counts split
between plain functions and closures, plus the stored denominator
`total_space_functions`. -/
structure Stats where
  fn_nexits : Nat
  closure_nexits : Nat
  total_space_functions : Nat
deriving DecidableEq, Repr

/-- `Default for Stats` in `nexits.rs`: counters start at zero and the
denominator starts at one. -/
def Stats.default : Stats :=
  { fn_nexits := 0, closure_nexits := 0, total_space_functions := 1 }

/-- `Stats::merge` from `nexits.rs`: adds the two exit counters of `other`
into `self`; `total_space_functions` is not touched. -/
def Stats.merge (self other : Stats) : Stats :=
  { self with
    fn_nexits := self.fn_nexits + other.fn_nexits
    closure_nexits := self.closure_nexits + other.closure_nexits }

/-- `Stats::fn_exits`: the function exit counter as an `f64`. -/
def Stats.fn_exits (s : Stats) : FVal := .fin (s.fn_nexits : ℚ)

/-- `Stats::closure_exits`: the closure exit counter as an `f64`. -/
def Stats.closure_exits (s : Stats) : FVal := .fin (s.closure_nexits : ℚ)

/-- `Stats::total`: sum of function and closure exits. -/
def Stats.total (s : Stats) : FVal :=
  .fin ((s.fn_nexits : ℚ) + (s.closure_nexits : ℚ))

/-- `Stats::nexits_average`: `self.total() / self.total_space_functions as
f64`.  Note the source divides unconditionally. -/
def Stats.nexits_average (s : Stats) : FVal :=
  FVal.div s.total (.fin (s.total_space_functions : ℚ))

/-- `Stats::finalize` from `nexits.rs`: stores the denominator computed by
the caller. -/
def Stats.finalize (s : Stats) (total_space_functions : Nat) : Stats :=
  { s with total_space_functions := total_space_functions }

end exit

/-- Modelled from the spec: the caller of `exit::Stats::finalize` (and of the
argument-count finalizer) is not among the sources at hand; per §3 the
average denominator is "a number of functions/closures in scope ...
defaulting to a safe value (see §7) when that denominator is zero", and the
`Stats` defaults in the sources use 1 for that safe value.  The in-repo
tests pin the denominator to functions + closures (e.g. `rust_closures`:
two closures, total 2, average 1.0).  So the missing finalization passes
`functions + closures`, replaced by 1 when that sum is zero. -/
def specDenominator (functions closures : Nat) : Nat :=
  if functions + closures = 0 then 1 else functions + closures

/-- Modelled from the spec: the missing per-scope finalization step applies
`Stats::finalize` with the `specDenominator` of the scope's function and
closure counts. -/
def specFinalizeNexits (s : exit.Stats) (functions closures : Nat) : exit.Stats :=
  s.finalize (specDenominator functions closures)

namespace fn_args

/-- Modelled from the spec: the argument-count accumulator (`fn_args.rs` is
not among the sources).  Per §4.2 it tracks "argument counts, split
function vs closure" with additive merge and average `total ÷
(#functions+closures)`; it mirrors the shape of `exit::Stats`. -/
structure Stats where
  fn_nargs : Nat
  closure_nargs : Nat
  total_space_functions : Nat
deriving DecidableEq, Repr

/-- Modelled from the spec: argument counters start at zero; the denominator
default mirrors the exit metric's safe default of one. -/
def Stats.default : Stats :=
  { fn_nargs := 0, closure_nargs := 0, total_space_functions := 1 }

/-- Modelled from the spec: additive merge of the two argument counters;
the stored denominator is not merged. -/
def Stats.merge (self other : Stats) : Stats :=
  { self with
    fn_nargs := self.fn_nargs + other.fn_nargs
    closure_nargs := self.closure_nargs + other.closure_nargs }

/-- Modelled from the spec: total argument count. -/
def Stats.total (s : Stats) : FVal :=
  .fin ((s.fn_nargs : ℚ) + (s.closure_nargs : ℚ))

/-- Modelled from the spec: the argument average divides the total by the
stored denominator, exactly as `nexits_average` does. -/
def Stats.nargs_average (s : Stats) : FVal :=
  FVal.div s.total (.fin (s.total_space_functions : ℚ))

/-- Modelled from the spec: the missing per-scope finalization stores the
safe denominator. -/
def Stats.specFinalize (s : Stats) (functions closures : Nat) : Stats :=
  { s with total_space_functions := specDenominator functions closures }

end fn_args

namespace cyclomatic

/-- Modelled from the spec: the branch/cyclomatic accumulator
(`cyclomatic.rs` is not among the sources): a count of decision-introducing
nodes with additive merge (§4.2). -/
structure Stats where
  sum : Nat
deriving DecidableEq, Repr

/-- Modelled from the spec: the count starts at zero. -/
def Stats.default : Stats := { sum := 0 }

/-- Modelled from the spec: additive merge. -/
def Stats.merge (self other : Stats) : Stats :=
  { sum := self.sum + other.sum }

end cyclomatic

namespace loc

/-- Modelled from the spec: the line-count accumulator (`loc.rs` is not
among the sources): "strict/physical/logical/comment/blank line counts"
with "additive sum per sub-counter" (§4.2). -/
structure Stats where
  strict : Nat
  physical : Nat
  logical : Nat
  comment : Nat
  blank : Nat
deriving DecidableEq, Repr

/-- Modelled from the spec: all line counters start at zero. -/
def Stats.default : Stats :=
  { strict := 0, physical := 0, logical := 0, comment := 0, blank := 0 }

/-- Modelled from the spec: additive merge per sub-counter. -/
def Stats.merge (self other : Stats) : Stats :=
  { strict := self.strict + other.strict
    physical := self.physical + other.physical
    logical := self.logical + other.logical
    comment := self.comment + other.comment
    blank := self.blank + other.blank }

end loc

namespace nom

/-- Modelled from the spec: the function/closure-count accumulator (`nom.rs`
is not among the sources): "function count, closure count" with additive
merge; `total = functions + closures` (§4.2). -/
structure Stats where
  functions : Nat
  closures : Nat
deriving DecidableEq, Repr

/-- Modelled from the spec: the counts start at zero. -/
def Stats.default : Stats := { functions := 0, closures := 0 }

/-- Modelled from the spec: additive merge of both counters. -/
def Stats.merge (self other : Stats) : Stats :=
  { functions := self.functions + other.functions
    closures := self.closures + other.closures }

/-- Modelled from the spec: total = functions + closures. -/
def Stats.total (s : Stats) : Nat := s.functions + s.closures

end nom

namespace halstead

/-- Modelled from the spec: the token (Halstead) `Stats` (`halstead.rs` is
not among the sources).  It records the distinct/total operator and operand
counts (n1, N1, n2, N2) determined by the finalized maps; the further
derived figures (volume, difficulty, ...) are real-valued (they involve
log2) and no claim references them, so they are not modelled. -/
structure Stats where
  u_operators : Nat
  operators : Nat
  u_operands : Nat
  operands : Nat
deriving DecidableEq, Repr

/-- Modelled from the spec: all counts start at zero. -/
def Stats.default : Stats :=
  { u_operators := 0, operators := 0, u_operands := 0, operands := 0 }

/-- Modelled from the spec: the token `Stats` is "NOT merged directly — its
backing maps are merged" (§4.2), so the merge invoked by
`CodeMetrics::merge` leaves the receiver unchanged. -/
def Stats.merge (self _other : Stats) : Stats := self

end halstead

namespace mi

/-- Modelled from the spec: the maintainability `Stats` (`mi.rs` is not
among the sources): "three numeric variants (original, tool-specific
variant A, variant B)" (§4.2), modelled as three rationals. -/
structure Stats where
  original : ℚ
  variantA : ℚ
  variantB : ℚ
deriving DecidableEq, Repr

/-- Modelled from the spec: the variants start at zero. -/
def Stats.default : Stats := { original := 0, variantA := 0, variantB := 0 }

/-- Modelled from the spec: the maintainability score is "explicitly not
merged across scopes ... never merged — recomputed per scope after merge"
(§3, §4.2), so the merge invoked by `CodeMetrics::merge` leaves the
receiver unchanged. -/
def Stats.merge (self _other : Stats) : Stats := self

end mi

/-- All metrics data (`CodeMetrics` in `spaces.rs`). -/
structure CodeMetrics where
  nargs : fn_args.Stats
  nexits : exit.Stats
  cyclomatic : cyclomatic.Stats
  halstead : halstead.Stats
  loc : loc.Stats
  nom : nom.Stats
  mi : mi.Stats
deriving DecidableEq, Repr

/-- `Default for CodeMetrics` in `spaces.rs`. -/
def CodeMetrics.default : CodeMetrics :=
  { cyclomatic := cyclomatic.Stats.default
    halstead := halstead.Stats.default
    loc := loc.Stats.default
    nom := nom.Stats.default
    mi := mi.Stats.default
    nargs := fn_args.Stats.default
    nexits := exit.Stats.default }

/-- `CodeMetrics::merge` from `spaces.rs`: merges every component, in the
source's order. -/
def CodeMetrics.merge (self other : CodeMetrics) : CodeMetrics :=
  { cyclomatic := self.cyclomatic.merge other.cyclomatic
    halstead := self.halstead.merge other.halstead
    loc := self.loc.merge other.loc
    nom := self.nom.merge other.nom
    mi := self.mi.merge other.mi
    nargs := self.nargs.merge other.nargs
    nexits := self.nexits.merge other.nexits }

/-- Function space data (`FuncSpace` in `spaces.rs`). -/
structure FuncSpace where
  name : Option ByteStr
  start_line : Nat
  end_line : Nat
  kind : SpaceKind
  spaces : List FuncSpace
  metrics : CodeMetrics
deriving Repr

/-- The `(start_position, end_position)` computation shared by
`FuncSpace::new` and `Ops::new`: a `Unit` with zero children uses `(0, 0)`;
a `Unit` with children uses `(start_row + 1, end_row)`; every other kind
uses `(start_row + 1, end_row + 1)`. -/
def spanOf (node : TSNode) (kind : SpaceKind) : Nat × Nat :=
  match kind with
  | SpaceKind.Unit =>
    if node.childCount = 0 then (0, 0)
    else (node.startRow + 1, node.endRow)
  | _ => (node.startRow + 1, node.endRow + 1)

/-- Modelled from the spec: the transient Halstead maps (`halstead.rs` is not
among the sources): "two key→count multisets — distinct operator identities
and distinct operand byte-strings — scoped to one in-progress space" (§3).
The real maps are hash maps; they are modelled as association lists whose
key sets are faithful (the real iteration order is unspecified; the model
fixes insertion order). -/
structure HalsteadMaps where
  operators : List (Nat × Nat)
  operands : List (ByteStr × Nat)

/-- Adds `n` occurrences of key `k` to a count list, bumping the existing
entry if present and appending a new entry otherwise. -/
def bumpCount {α : Type} [DecidableEq α] : List (α × Nat) → α → Nat → List (α × Nat)
  | [], k, n => [(k, n)]
  | (k0, c) :: rest, k, n =>
    if k0 = k then (k0, c + n) :: rest else (k0, c) :: bumpCount rest k n

/-- Union of two count lists with count addition (counts stay in `Nat`; the
real code uses saturating `usize` addition, which never saturates at the
sizes any claim touches). -/
def mergeCounts {α : Type} [DecidableEq α] (a b : List (α × Nat)) : List (α × Nat) :=
  b.foldl (fun acc p => bumpCount acc p.1 p.2) a

/-- `HalsteadMaps::new`: both maps start empty. -/
def HalsteadMaps.new : HalsteadMaps := { operators := [], operands := [] }

/-- `HalsteadMaps::merge`: merge = union of keys with count addition (§3). -/
def HalsteadMaps.merge (self other : HalsteadMaps) : HalsteadMaps :=
  { operators := mergeCounts self.operators other.operators
    operands := mergeCounts self.operands other.operands }

/-- Modelled from the spec: finalizing a scope computes its token `Stats`
("distinct/total operator and operand counts") from the merged map (§3). -/
def HalsteadMaps.finalizeStats (m : HalsteadMaps) : halstead.Stats :=
  { u_operators := m.operators.length
    operators := (m.operators.map Prod.snd).sum
    u_operands := m.operands.length
    operands := (m.operands.map Prod.snd).sum }

/-- A list of the supported metrics (`MetricsList` in `spaces.rs`). -/
inductive MetricsList where
  | Nargs
  | Nexits
  | Cyclomatic
  | Halstead
  | Loc
  | Mi
  | Nom
deriving DecidableEq, Repr

/-- The chosen metrics to be computed (`ChosenMetrics` in `spaces.rs`): an
`ArrayVec` of capacity 7; the `index` field only drives Rust's `Iterator`
and is not part of the model, iteration being modelled as walking the
list. -/
structure ChosenMetrics where
  chosen_metrics : List MetricsList
deriving DecidableEq, Repr

/-- `ChosenMetrics::is_full`: an `ArrayVec` of capacity 7 is full when it
holds 7 elements. -/
def ChosenMetrics.is_full (m : ChosenMetrics) : Bool :=
  m.chosen_metrics.length = 7

/-- `ChosenMetrics::is_metric`: membership in the chosen list. -/
def ChosenMetrics.is_metric (m : ChosenMetrics) (metric : MetricsList) : Bool :=
  m.chosen_metrics.contains metric

/-- `ChosenMetrics::new`: if `Mi` is requested, `Cyclomatic`, `Loc`,
`Halstead` and `Mi` are pushed first; then every requested metric not
already present is pushed while capacity remains. -/
def ChosenMetrics.new (metrics_list : List MetricsList) : ChosenMetrics :=
  let init : List MetricsList :=
    if metrics_list.contains MetricsList.Mi then
      [MetricsList.Cyclomatic, MetricsList.Loc, MetricsList.Halstead, MetricsList.Mi]
    else []
  { chosen_metrics :=
      metrics_list.foldl
        (fun acc m => if acc.length = 7 ∨ acc.contains m then acc else acc ++ [m])
        init }

/-- The per-language capability interface consumed by the core (§6): node
classification, naming, the per-metric visit hooks, the maintainability
formula and the operator spelling table.  The immutable source bytes passed
to the real hooks are fixed for the duration of one call and are absorbed
into the adapter's functions. -/
structure Adapter where
  getSpaceKind : TSNode → SpaceKind
  isFunc : TSNode → Bool
  isFuncSpace : TSNode → Bool
  getFuncSpaceName : TSNode → Option ByteStr
  cyclomaticCompute : TSNode → cyclomatic.Stats → cyclomatic.Stats
  halsteadCompute : TSNode → HalsteadMaps → HalsteadMaps
  locCompute : TSNode → loc.Stats → Bool → Bool → loc.Stats
  nomCompute : TSNode → nom.Stats → nom.Stats
  nargsCompute : TSNode → fn_args.Stats → fn_args.Stats
  exitCompute : TSNode → exit.Stats → exit.Stats
  miCompute : loc.Stats → cyclomatic.Stats → halstead.Stats → mi.Stats
  getOperatorIdAsStr : Nat → ByteStr

/-- `FuncSpace::new` from `spaces.rs`: name from the adapter, empty child
list, default metrics, and the line span given by `spanOf`. -/
def FuncSpace.new (A : Adapter) (node : TSNode) (kind : SpaceKind) : FuncSpace :=
  let sp := spanOf node kind
  { name := A.getFuncSpaceName node
    spaces := []
    metrics := CodeMetrics.default
    kind := kind
    start_line := sp.1
    end_line := sp.2 }

/-- One in-progress scope of the Space Builder (`State` in `spaces.rs`). -/
structure SBState where
  space : FuncSpace
  halstead_maps : HalsteadMaps

/-- `compute_all_metrics` from `spaces.rs`: dispatches the visited node to
every metric hook of the scope on top of the stack, in the source's
order. -/
def compute_all_metrics (A : Adapter) (node : TSNode) (st : SBState)
    (func_space unit : Bool) : SBState :=
  let m := st.space.metrics
  let m := { m with cyclomatic := A.cyclomaticCompute node m.cyclomatic }
  let maps := A.halsteadCompute node st.halstead_maps
  let m := { m with loc := A.locCompute node m.loc func_space unit }
  let m := { m with nom := A.nomCompute node m.nom }
  let m := { m with nargs := A.nargsCompute node m.nargs }
  let m := { m with nexits := A.exitCompute node m.nexits }
  { space := { st.space with metrics := m }, halstead_maps := maps }

/-- One arm of the `match` in `compute_certain_metrics`: dispatch the node
to the hook of a single chosen metric; `Mi` is skipped during the walk. -/
def certainStep (A : Adapter) (node : TSNode) (func_space unit : Bool)
    (st : SBState) (metric : MetricsList) : SBState :=
  match metric with
  | MetricsList.Cyclomatic =>
    { st with space.metrics.cyclomatic :=
        A.cyclomaticCompute node st.space.metrics.cyclomatic }
  | MetricsList.Halstead =>
    { st with halstead_maps := A.halsteadCompute node st.halstead_maps }
  | MetricsList.Loc =>
    { st with space.metrics.loc :=
        A.locCompute node st.space.metrics.loc func_space unit }
  | MetricsList.Nom =>
    { st with space.metrics.nom := A.nomCompute node st.space.metrics.nom }
  | MetricsList.Nargs =>
    { st with space.metrics.nargs := A.nargsCompute node st.space.metrics.nargs }
  | MetricsList.Nexits =>
    { st with space.metrics.nexits := A.exitCompute node st.space.metrics.nexits }
  | MetricsList.Mi => st

/-- `compute_certain_metrics` from `spaces.rs`: dispatches the visited node
only to the hooks of the chosen metrics, iterating the chosen list in
order. -/
def compute_certain_metrics (A : Adapter) (node : TSNode) (st : SBState)
    (func_space unit : Bool) (cm : ChosenMetrics) : SBState :=
  cm.chosen_metrics.foldl (certainStep A node func_space unit) st

/-- The per-node metric dispatch of the main loop: `compute_all_metrics`
when no selection was given or the selection is full, otherwise
`compute_certain_metrics`. -/
def nodeCompute (A : Adapter) (cm : Option ChosenMetrics) (node : TSNode)
    (func_space unit : Bool) (st : SBState) : SBState :=
  match cm with
  | none => compute_all_metrics A node st func_space unit
  | some m =>
    if m.is_full then compute_all_metrics A node st func_space unit
    else compute_certain_metrics A node st func_space unit m

/-- `compute_halstead_and_mi` from `spaces.rs`: finalize the scope's token
maps into its Halstead `Stats` when `Mi` or `Halstead` is active, then
recompute the maintainability score from the scope's current line, branch
and token metrics when `Mi` is active. -/
def compute_hm (A : Adapter) (cm : Option ChosenMetrics) (st : SBState) : SBState :=
  let st :=
    if (match cm with
        | none => true
        | some m => m.is_metric MetricsList.Mi || m.is_metric MetricsList.Halstead) then
      { st with space.metrics.halstead := st.halstead_maps.finalizeStats }
    else st
  if (match cm with
      | none => true
      | some m => m.is_metric MetricsList.Mi) then
    { st with space.metrics.mi :=
        (A.miCompute st.space.metrics.loc st.space.metrics.cyclomatic
          st.space.metrics.halstead) }
  else st

/-- The body of one `finalize` pop in `spaces.rs`: the popped child is
finalized (`compute_halstead_and_mi`), its token maps are merged into the
parent, the parent is recomputed, the child's metrics are merged into the
parent's, and the child's space is appended to the parent's child list. -/
def closeInto (A : Adapter) (cm : Option ChosenMetrics)
    (parent child : SBState) : SBState :=
  let child := compute_hm A cm child
  let parent := { parent with halstead_maps := parent.halstead_maps.merge child.halstead_maps }
  let parent := compute_hm A cm parent
  { parent with space := { parent.space with
      metrics := parent.space.metrics.merge child.space.metrics
      spaces := parent.space.spaces ++ [child.space] } }

/-- `finalize` from `spaces.rs`: up to `diff_level` iterations; when the
state stack holds at most one element the top is recomputed and the loop
breaks — on an empty stack the source's `last_mut().unwrap()` panics, which
the model reports as an error; otherwise the top scope is popped and closed
into the one below. -/
def finalizeSB (A : Adapter) (cm : Option ChosenMetrics) :
    List SBState → Nat → Except String (List SBState)
  | ss, 0 => Except.ok ss
  | [], Nat.succ _ => Except.error "finalize: unwrap on empty state stack"
  | [s], Nat.succ _ => Except.ok [compute_hm A cm s]
  | s :: s2 :: r, Nat.succ d => finalizeSB A cm (closeInto A cm s2 s :: r) d

/-- `usize::MAX` on a 64-bit target. -/
def USIZE_MAX : Nat := 2 ^ 64 - 1

/-- Applies a function to the scope on top of the stack, if any (mirrors
`if let Some(state) = state_stack.last_mut()`). -/
def applyTop {α : Type} (f : α → α) : List α → List α
  | [] => []
  | s :: r => f s :: r

/-- Total size of the pending node stack (termination measure of the main
loop). -/
def stackSize : List (TSNode × Nat) → Nat
  | [] => 0
  | (t, _) :: r => TSNode.size t + stackSize r

theorem TSNode.size_eq (t : TSNode) : t.size = 1 + TSNode.sizeForest t.children := by
  cases t; rfl

theorem stackSize_append (a b : List (TSNode × Nat)) :
    stackSize (a ++ b) = stackSize a + stackSize b := by
  induction a with
  | nil => simp [stackSize]
  | cons p r ih => cases p; simp [stackSize, ih]; ring

theorem stackSize_map_children (l : List TSNode) (n : Nat) :
    stackSize (l.map (fun c => (c, n))) = TSNode.sizeForest l := by
  induction l with
  | nil => simp [stackSize, TSNode.sizeForest]
  | cons t r ih => simp [stackSize, TSNode.sizeForest, ih]

/-- One iteration of the main loop of `metrics` from `spaces.rs`, for the
popped `(node, level)`: finalize on a level drop; classify the node; push a
fresh scope when it opens a space; dispatch the node to the metric hooks of
the top scope.  Returns the new state stack, the new `last_level`, and the
`new_level` given to the node's children. -/
def metricsIter (A : Adapter) (cm : Option ChosenMetrics) (node : TSNode)
    (level : Nat) (ss : List SBState) (last_level : Nat) :
    Except String (List SBState × Nat × Nat) :=
  let fz := if level < last_level then finalizeSB A cm ss (last_level - level)
            else Except.ok ss
  let ll0 := if level < last_level then level else last_level
  match fz with
  | Except.error e => Except.error e
  | Except.ok ss0 =>
    let kind := A.getSpaceKind node
    let func_space := A.isFunc node || A.isFuncSpace node
    let unit : Bool := decide (kind = SpaceKind.Unit)
    let ss1 := if func_space then
        { space := FuncSpace.new A node kind,
          halstead_maps := HalsteadMaps.new } :: ss0
      else ss0
    let ll1 := if func_space then level + 1 else ll0
    let new_level := if func_space then level + 1 else level
    let ss2 := applyTop (fun st => nodeCompute A cm node func_space unit st) ss1
    Except.ok (ss2, ll1, new_level)

/-- The main loop of `metrics` from `spaces.rs`: pop the next
`(node, level)`, run one iteration, and push the children so they pop in
document order. -/
def metricsLoop (A : Adapter) (cm : Option ChosenMetrics) :
    List (TSNode × Nat) → List SBState → Nat → Except String (List SBState)
  | [], ss, _ => Except.ok ss
  | (node, level) :: rest, ss, last_level =>
    match metricsIter A cm node level ss last_level with
    | Except.error e => Except.error e
    | Except.ok (ss2, ll1, new_level) =>
      metricsLoop A cm (node.children.map (fun c => (c, new_level)) ++ rest) ss2 ll1
termination_by stack _ _ => stackSize stack
decreasing_by
  simp [stackSize, stackSize_append, stackSize_map_children, TSNode.size_eq]

/-- `metrics` from `spaces.rs`: run the walk seeded with `(root, 0)`, drain
all remaining open scopes with `finalize(usize::MAX)`, and name the
resulting root space from the file path.  The result is `Ok (some root)`,
`Ok none` were the final stack empty, or an error when the source would
panic. -/
def metrics (A : Adapter) (cm : Option ChosenMetrics) (root : TSNode)
    (path : Option ByteStr) : Except String (Option FuncSpace) :=
  match metricsLoop A cm [(root, 0)] [] 0 with
  | Except.error e => Except.error e
  | Except.ok ss =>
    match finalizeSB A cm ss USIZE_MAX with
    | Except.error e => Except.error e
    | Except.ok ss2 =>
      Except.ok (ss2.head?.map (fun st => { st.space with name := path }))

/-- All operands and operators of a space (`Ops` in `ops.rs`). -/
structure Ops where
  name : Option ByteStr
  start_line : Nat
  end_line : Nat
  kind : SpaceKind
  spaces : List Ops
  operands : List ByteStr
  operators : List ByteStr

/-- `Ops::new` from `ops.rs`: same construction as `FuncSpace::new`, with
empty operand/operator lists. -/
def Ops.new (A : Adapter) (node : TSNode) (kind : SpaceKind) : Ops :=
  let sp := spanOf node kind
  { name := A.getFuncSpaceName node
    spaces := []
    kind := kind
    start_line := sp.1
    end_line := sp.2
    operators := []
    operands := [] }

/-- `Ops::merge_ops` from `ops.rs`: extends the receiver's operand and
operator lists with the other space's lists (plain concatenation, no
deduplication). -/
def Ops.merge_ops (self other : Ops) : Ops :=
  { self with
    operands := self.operands ++ other.operands
    operators := self.operators ++ other.operators }

/-- One in-progress scope of the operand/operator collector (`State` in
`ops.rs`). -/
structure OpsState where
  ops : Ops
  halstead_maps : HalsteadMaps

/-- The body of one `finalize` pop in `ops.rs`: merge the popped scope's
Halstead maps and operand/operator lists into the parent and append the
finished space. -/
def opsCloseInto (parent child : OpsState) : OpsState :=
  let parent := { parent with
    halstead_maps := parent.halstead_maps.merge child.halstead_maps }
  { parent with ops := { (parent.ops.merge_ops child.ops) with
      spaces := parent.ops.spaces ++ [child.ops] } }

/-- `finalize` from `ops.rs`: up to `diff_level` pops; unlike the metrics
variant it simply breaks when at most one scope remains, so it cannot
panic. -/
def opsFinalize : List OpsState → Nat → List OpsState
  | ss, 0 => ss
  | [], Nat.succ _ => []
  | [s], Nat.succ _ => [s]
  | s :: s2 :: r, Nat.succ d => opsFinalize (opsCloseInto s2 s :: r) d

/-- A UTF-8 continuation byte (`10xxxxxx`). -/
def isUtf8Cont (b : Nat) : Bool := 0x80 ≤ b && b ≤ 0xBF

/-- Validity of a byte sequence as UTF-8, following the byte-pattern table
that `std::str::from_utf8` enforces (rejecting overlong forms, surrogates
and values above U+10FFFF). -/
def isValidUtf8 : List Nat → Bool
  | [] => true
  | b :: rest =>
    if b ≤ 0x7F then isValidUtf8 rest
    else if 0xC2 ≤ b ∧ b ≤ 0xDF then
      match rest with
      | c1 :: r => isUtf8Cont c1 && isValidUtf8 r
      | _ => false
    else if b = 0xE0 then
      match rest with
      | c1 :: c2 :: r => (0xA0 ≤ c1 && c1 ≤ 0xBF) && isUtf8Cont c2 && isValidUtf8 r
      | _ => false
    else if (0xE1 ≤ b ∧ b ≤ 0xEC) ∨ b = 0xEE ∨ b = 0xEF then
      match rest with
      | c1 :: c2 :: r => isUtf8Cont c1 && isUtf8Cont c2 && isValidUtf8 r
      | _ => false
    else if b = 0xED then
      match rest with
      | c1 :: c2 :: r => (0x80 ≤ c1 && c1 ≤ 0x9F) && isUtf8Cont c2 && isValidUtf8 r
      | _ => false
    else if b = 0xF0 then
      match rest with
      | c1 :: c2 :: c3 :: r =>
        (0x90 ≤ c1 && c1 ≤ 0xBF) && isUtf8Cont c2 && isUtf8Cont c3 && isValidUtf8 r
      | _ => false
    else if 0xF1 ≤ b ∧ b ≤ 0xF3 then
      match rest with
      | c1 :: c2 :: c3 :: r =>
        isUtf8Cont c1 && isUtf8Cont c2 && isUtf8Cont c3 && isValidUtf8 r
      | _ => false
    else if b = 0xF4 then
      match rest with
      | c1 :: c2 :: c3 :: r =>
        (0x80 ≤ c1 && c1 ≤ 0x8F) && isUtf8Cont c2 && isUtf8Cont c3 && isValidUtf8 r
      | _ => false
    else false
termination_by l => l.length
decreasing_by all_goals simp_arith

/-- Model of `std::str::from_utf8(k).unwrap().to_string()`: a Rust `String`
being its UTF-8 bytes, a valid key decodes to itself and an invalid key
makes the `unwrap` panic. -/
def fromUtf8 (k : ByteStr) : Option ByteStr :=
  if isValidUtf8 k then some k else none

/-- Decodes every operand key, failing as soon as one `unwrap` would panic
(the `collect` over `from_utf8(k).unwrap()` in `operands_and_operators`). -/
def decodeAll : List ByteStr → Option (List ByteStr)
  | [] => some []
  | k :: r =>
    match fromUtf8 k, decodeAll r with
    | some x, some xs => some (x :: xs)
    | _, _ => none

/-- The per-node refresh of the top scope's operand/operator lists in
`operands_and_operators`: run the Halstead hook, then overwrite the lists
with the spellings of the current map keys; an invalid operand key is the
source's `unwrap` panic. -/
def opsRecompute (A : Adapter) (node : TSNode) (st : OpsState) : Except String OpsState :=
  let maps := A.halsteadCompute node st.halstead_maps
  let operators := maps.operators.map (fun p => A.getOperatorIdAsStr p.1)
  match decodeAll (maps.operands.map Prod.fst) with
  | none => Except.error "operands_and_operators: from_utf8 unwrap failed"
  | some decoded =>
    Except.ok { st with
      halstead_maps := maps
      ops := { st.ops with operators := operators, operands := decoded } }

/-- Applies a fallible function to the scope on top of the stack, if
any. -/
def applyTopE {α : Type} (f : α → Except String α) :
    List α → Except String (List α)
  | [] => Except.ok []
  | s :: r =>
    match f s with
    | Except.error e => Except.error e
    | Except.ok s2 => Except.ok (s2 :: r)

/-- One iteration of the main loop of `operands_and_operators` from
`ops.rs`, for the popped `(node, level)`: identical skeleton to
`metricsIter`, with the list refresh as per-node work. -/
def opsIter (A : Adapter) (node : TSNode) (level : Nat) (ss : List OpsState)
    (last_level : Nat) : Except String (List OpsState × Nat × Nat) :=
  let ss0 := if level < last_level then opsFinalize ss (last_level - level) else ss
  let ll0 := if level < last_level then level else last_level
  let kind := A.getSpaceKind node
  let func_space := A.isFunc node || A.isFuncSpace node
  let ss1 := if func_space then
      { ops := Ops.new A node kind, halstead_maps := HalsteadMaps.new } :: ss0
    else ss0
  let ll1 := if func_space then level + 1 else ll0
  let new_level := if func_space then level + 1 else level
  match applyTopE (opsRecompute A node) ss1 with
  | Except.error e => Except.error e
  | Except.ok ss2 => Except.ok (ss2, ll1, new_level)

/-- The main loop of `operands_and_operators` from `ops.rs`. -/
def opsLoop (A : Adapter) :
    List (TSNode × Nat) → List OpsState → Nat → Except String (List OpsState)
  | [], ss, _ => Except.ok ss
  | (node, level) :: rest, ss, last_level =>
    match opsIter A node level ss last_level with
    | Except.error e => Except.error e
    | Except.ok (ss2, ll1, new_level) =>
      opsLoop A (node.children.map (fun c => (c, new_level)) ++ rest) ss2 ll1
termination_by stack _ _ => stackSize stack
decreasing_by
  simp [stackSize, stackSize_append, stackSize_map_children, TSNode.size_eq]

/-- `operands_and_operators` from `ops.rs`: run the walk, drain the open
scopes, and name the root from the file path. -/
def operands_and_operators (A : Adapter) (root : TSNode)
    (path : Option ByteStr) : Except String (Option Ops) :=
  match opsLoop A [(root, 0)] [] 0 with
  | Except.error e => Except.error e
  | Except.ok ss =>
    let ss2 := opsFinalize ss USIZE_MAX
    Except.ok (ss2.head?.map (fun st => { st.ops with name := path }))

theorem specDenominator_pos (f c : Nat) : 0 < specDenominator f c := by
  unfold specDenominator; split <;> omega

/-- Under any nonzero stored denominator the exit average is the finite
rational quotient. -/
theorem nexits_average_eq_div (s : exit.Stats) (h : s.total_space_functions ≠ 0) :
    s.nexits_average =
      FVal.fin (((s.fn_nexits : ℚ) + (s.closure_nexits : ℚ)) /
        (s.total_space_functions : ℚ)) := by
  have hq : (s.total_space_functions : ℚ) ≠ 0 := by exact_mod_cast h
  simp [exit.Stats.nexits_average, exit.Stats.total, FVal.div, hq]

/-- Under any nonzero stored denominator the argument average is the finite
rational quotient. -/
theorem nargs_average_eq_div (s : fn_args.Stats) (h : s.total_space_functions ≠ 0) :
    s.nargs_average =
      FVal.fin (((s.fn_nargs : ℚ) + (s.closure_nargs : ℚ)) /
        (s.total_space_functions : ℚ)) := by
  have hq : (s.total_space_functions : ℚ) ≠ 0 := by exact_mod_cast h
  simp [fn_args.Stats.nargs_average, fn_args.Stats.total, FVal.div, hq]

/-- C9: `exit::Stats::merge` adds only the `fn_nexits` and `closure_nexits`
counters; the receiver's `total_space_functions` — the denominator used by
`nexits_average` — is left unchanged by the merge. -/
theorem c9_exit_merge_preserves_denominator (a b : exit.Stats) :
    (a.merge b).total_space_functions = a.total_space_functions ∧
    (a.merge b).fn_nexits = a.fn_nexits + b.fn_nexits ∧
    (a.merge b).closure_nexits = a.closure_nexits + b.closure_nexits :=
  ⟨rfl, rfl, rfl⟩

/-- C2: a scope with zero functions and zero closures (hence zero
function-exit / closure-exit and argument counters) yields average 0 for
the exit and argument metrics under the spec-modelled safe finalization;
moreover the finalized exit average is a finite rational for every input —
never NaN or an infinity. -/
theorem c2_zero_denominator_average_zero (s : exit.Stats) (t : fn_args.Stats)
    (hs1 : s.fn_nexits = 0) (hs2 : s.closure_nexits = 0)
    (ht1 : t.fn_nargs = 0) (ht2 : t.closure_nargs = 0) :
    (specFinalizeNexits s 0 0).nexits_average = FVal.fin 0 ∧
    (t.specFinalize 0 0).nargs_average = FVal.fin 0 ∧
    (∀ (s2 : exit.Stats) (f c : Nat), ∃ q : ℚ,
      (specFinalizeNexits s2 f c).nexits_average = FVal.fin q) ∧
    (∀ (t2 : fn_args.Stats) (f c : Nat), ∃ q : ℚ,
      (t2.specFinalize f c).nargs_average = FVal.fin q) := by
  refine ⟨?_, ?_, ?_, ?_⟩
  · have h : (specFinalizeNexits s 0 0).total_space_functions ≠ 0 := by
      have := specDenominator_pos 0 0
      simp [specFinalizeNexits, exit.Stats.finalize]
      omega
    rw [nexits_average_eq_div _ h]
    simp [specFinalizeNexits, exit.Stats.finalize, hs1, hs2]
  · have h : (t.specFinalize 0 0).total_space_functions ≠ 0 := by
      have := specDenominator_pos 0 0
      simp [fn_args.Stats.specFinalize]
      omega
    rw [nargs_average_eq_div _ h]
    simp [fn_args.Stats.specFinalize, ht1, ht2]
  · intro s2 f c
    have h : (specFinalizeNexits s2 f c).total_space_functions ≠ 0 := by
      have := specDenominator_pos f c
      simp [specFinalizeNexits, exit.Stats.finalize]
      omega
    exact ⟨_, nexits_average_eq_div _ h⟩
  · intro t2 f c
    have h : (t2.specFinalize f c).total_space_functions ≠ 0 := by
      have := specDenominator_pos f c
      simp [fn_args.Stats.specFinalize]
      omega
    exact ⟨_, nargs_average_eq_div _ h⟩

/-- Witness for C2 at the default accumulators. -/
theorem c2_zero_denominator_average_zero_witness :
    (specFinalizeNexits exit.Stats.default 0 0).nexits_average = FVal.fin 0 ∧
    (fn_args.Stats.default.specFinalize 0 0).nargs_average = FVal.fin 0 := by
  have h := c2_zero_denominator_average_zero exit.Stats.default fn_args.Stats.default
    rfl rfl rfl rfl
  exact ⟨h.1, h.2.1⟩

/-- The exit-point average exactly as claim C3 states it: the total number
of exit points divided by the number of functions in the scope. -/
def claimedNexitsAverage (s : exit.Stats) (functions : Nat) : FVal :=
  FVal.div s.total (FVal.fin (functions : ℚ))

/-- The exit accumulator of a scope holding two closures with one `return`
each and no plain function — the situation of the in-repo `rust_closures`
test, whose expected average is 1.0. -/
def nexitsTwoClosures : exit.Stats :=
  { fn_nexits := 0, closure_nexits := 2, total_space_functions := 1 }

/-- Counterexample to C3: in a scope with zero functions and two closures
(two closure exits in total), the code's average is 1 — the in-repo
`rust_closures` test's expectation — while the claim's formula
`total ÷ #functions` gives `2 / 0`, an infinity, and in particular not the
code's value. -/
theorem c3_counterexample :
    (specFinalizeNexits nexitsTwoClosures 0 2).nexits_average = FVal.fin 1 ∧
    claimedNexitsAverage nexitsTwoClosures 0 = FVal.inf ∧
    claimedNexitsAverage nexitsTwoClosures 0 ≠
      (specFinalizeNexits nexitsTwoClosures 0 2).nexits_average := by
  refine ⟨?_, ?_, ?_⟩
  · have h : (specFinalizeNexits nexitsTwoClosures 0 2).total_space_functions ≠ 0 := by
      simp [specFinalizeNexits, exit.Stats.finalize, specDenominator, nexitsTwoClosures]
    rw [nexits_average_eq_div _ h]
    norm_num [specFinalizeNexits, exit.Stats.finalize, specDenominator, nexitsTwoClosures]
  · norm_num [claimedNexitsAverage, exit.Stats.total, FVal.div, nexitsTwoClosures]
  · have h : (specFinalizeNexits nexitsTwoClosures 0 2).total_space_functions ≠ 0 := by
      simp [specFinalizeNexits, exit.Stats.finalize, specDenominator, nexitsTwoClosures]
    rw [nexits_average_eq_div _ h]
    norm_num [claimedNexitsAverage, exit.Stats.total, FVal.div, nexitsTwoClosures]
    exact fun hEq => FVal.noConfusion hEq

/-- C3 amended: the exit-point average equals the total number of exit
points divided by the number of functions *plus closures* in the scope
(safe value 1 when that sum is zero), matching the accumulator's own doc
comment and the in-repo tests. -/
theorem c3_amended_exit_average_denominator (s : exit.Stats) (f c : Nat) :
    (specFinalizeNexits s f c).nexits_average =
      FVal.fin (((s.fn_nexits : ℚ) + (s.closure_nexits : ℚ)) /
        (specDenominator f c : ℚ)) := by
  have h : (specFinalizeNexits s f c).total_space_functions ≠ 0 := by
    have := specDenominator_pos f c
    simp [specFinalizeNexits, exit.Stats.finalize]
    omega
  rw [nexits_average_eq_div _ h]
  simp [specFinalizeNexits, exit.Stats.finalize]

/-- An adapter that classifies nothing as a space and whose hooks are all
no-ops; used for concrete evaluations. -/
def trivialAdapter : Adapter :=
  { getSpaceKind := fun _ => SpaceKind.Unknown
    isFunc := fun _ => false
    isFuncSpace := fun _ => false
    getFuncSpaceName := fun _ => none
    cyclomaticCompute := fun _ s => s
    halsteadCompute := fun _ m => m
    locCompute := fun _ s _ _ => s
    nomCompute := fun _ s => s
    nargsCompute := fun _ s => s
    exitCompute := fun _ s => s
    miCompute := fun _ _ _ => mi.Stats.default
    getOperatorIdAsStr := fun _ => [] }

/-- A unit node that starts and ends on source row 0 and has one child —
the syntax root of a one-line file without a trailing newline. -/
def oneRowUnitNode : TSNode := TSNode.mk 0 0 0 [TSNode.mk 1 0 0 []]

/-- Counterexample to C7: a `Unit` node with a child whose span lies on a
single row (a one-line file with no trailing newline) is well-formed
(`end_row ≥ start_row`) yet yields line span `(1, 0)`, violating
`end_line ≥ start_line`. -/
theorem c7_counterexample :
    oneRowUnitNode.startRow ≤ oneRowUnitNode.endRow ∧
    oneRowUnitNode.childCount ≠ 0 ∧
    (FuncSpace.new trivialAdapter oneRowUnitNode SpaceKind.Unit).start_line = 1 ∧
    (FuncSpace.new trivialAdapter oneRowUnitNode SpaceKind.Unit).end_line = 0 ∧
    ¬ (FuncSpace.new trivialAdapter oneRowUnitNode SpaceKind.Unit).start_line ≤
        (FuncSpace.new trivialAdapter oneRowUnitNode SpaceKind.Unit).end_line := by
  refine ⟨by decide, by decide, rfl, rfl, by decide⟩

/-- C7 amended: with `end_row ≥ start_row` (as tree-sitter guarantees),
every non-`Unit` space satisfies `end_line ≥ start_line`; a `Unit` with
children satisfies it exactly when the node spans at least two rows
(`end_row > start_row`, e.g. a file ending in a newline); a `Unit` with no
children uses the `(0, 0)` sentinel. -/
theorem c7_amended_span_invariant (A : Adapter) (node : TSNode) (kind : SpaceKind) :
    (kind ≠ SpaceKind.Unit → node.startRow ≤ node.endRow →
      (FuncSpace.new A node kind).start_line ≤ (FuncSpace.new A node kind).end_line) ∧
    (kind = SpaceKind.Unit → node.childCount ≠ 0 → node.startRow < node.endRow →
      (FuncSpace.new A node kind).start_line ≤ (FuncSpace.new A node kind).end_line) ∧
    (kind = SpaceKind.Unit → node.childCount = 0 →
      (FuncSpace.new A node kind).start_line = 0 ∧
      (FuncSpace.new A node kind).end_line = 0) := by
  refine ⟨?_, ?_, ?_⟩
  · intro hk h
    cases kind <;> first
      | exact absurd rfl hk
      | (simp [FuncSpace.new, spanOf]; omega)
  · intro hk hc h
    subst hk
    simp only [FuncSpace.new, spanOf]
    split
    next h0 => exact absurd h0 hc
    next => simp; omega
  · intro hk hc
    subst hk
    simp [FuncSpace.new, spanOf, hc]

/-- Witness for the amended C7 at concrete nodes of each shape. -/
theorem c7_amended_span_invariant_witness :
    (FuncSpace.new trivialAdapter (TSNode.mk 3 1 4 []) SpaceKind.Function).start_line ≤
      (FuncSpace.new trivialAdapter (TSNode.mk 3 1 4 []) SpaceKind.Function).end_line ∧
    (FuncSpace.new trivialAdapter (TSNode.mk 0 0 5 [TSNode.mk 1 0 0 []]) SpaceKind.Unit).start_line ≤
      (FuncSpace.new trivialAdapter (TSNode.mk 0 0 5 [TSNode.mk 1 0 0 []]) SpaceKind.Unit).end_line ∧
    (FuncSpace.new trivialAdapter (TSNode.mk 0 0 0 []) SpaceKind.Unit).start_line = 0 :=
  ⟨(c7_amended_span_invariant trivialAdapter (TSNode.mk 3 1 4 []) SpaceKind.Function).1
      (by decide) (by decide),
   (c7_amended_span_invariant trivialAdapter
      (TSNode.mk 0 0 5 [TSNode.mk 1 0 0 []]) SpaceKind.Unit).2.1 rfl (by decide) (by decide),
   ((c7_amended_span_invariant trivialAdapter (TSNode.mk 0 0 0 []) SpaceKind.Unit).2.2
      rfl (by decide)).1⟩

/-- On an empty stack, any positive-fuel `finalize` hits the source's
`last_mut().unwrap()` panic. -/
theorem finalizeSB_nil_of_ne_zero (A : Adapter) (cm : Option ChosenMetrics)
    (d : Nat) (h : d ≠ 0) :
    finalizeSB A cm [] d = Except.error "finalize: unwrap on empty state stack" := by
  cases d with
  | zero => exact absurd rfl h
  | succ d => rfl

/-- The ops `finalize` is the identity on an empty stack. -/
theorem opsFinalize_nil (d : Nat) : opsFinalize [] d = [] := by
  cases d with
  | zero => rfl
  | succ d => rfl

/-- A childless node that no adapter method classifies as a space. -/
def nonSpaceNode : TSNode := TSNode.mk 5 0 0 []

/-- C6 (failing input): on an input whose walk opens zero spaces, `metrics`
does not return `None`: its final `finalize(usize::MAX)` immediately calls
`last_mut().unwrap()` on the empty state stack and panics — while the
`ops.rs` twin of the same traversal returns `None` as documented. -/
theorem c6_zero_space_input_panics :
    metrics trivialAdapter none nonSpaceNode none =
      Except.error "finalize: unwrap on empty state stack" ∧
    operands_and_operators trivialAdapter nonSpaceNode none = Except.ok none := by
  constructor
  · simp [metrics, metricsLoop, metricsIter, finalizeSB_nil_of_ne_zero, trivialAdapter,
      nonSpaceNode, applyTop, TSNode.children, USIZE_MAX]
  · simp [operands_and_operators, opsLoop, opsIter, opsFinalize, trivialAdapter,
      nonSpaceNode, applyTopE, opsRecompute, decodeAll, HalsteadMaps.new,
      TSNode.children, USIZE_MAX, opsFinalize_nil]

/-- A small concrete adapter for the operand/operator collector: node kind 0
is the file unit, kind 1 a function, kind 9 an occurrence of the operator
whose id is 7, spelled `"+"` (byte 43). -/
def opsDemoAdapter : Adapter :=
  { getSpaceKind := fun n =>
      if n.kindId = 0 then SpaceKind.Unit
      else if n.kindId = 1 then SpaceKind.Function
      else SpaceKind.Unknown
    isFunc := fun n => n.kindId = 1
    isFuncSpace := fun n => n.kindId = 0
    getFuncSpaceName := fun _ => none
    cyclomaticCompute := fun _ s => s
    halsteadCompute := fun n m =>
      if n.kindId = 9 then { m with operators := bumpCount m.operators 7 1 } else m
    locCompute := fun _ s _ _ => s
    nomCompute := fun _ s => s
    nargsCompute := fun _ s => s
    exitCompute := fun _ s => s
    miCompute := fun _ _ _ => mi.Stats.default
    getOperatorIdAsStr := fun k => if k = 7 then [43] else [] }

/-- A file whose unit contains a `"+"` at top level and then a function also
containing a `"+"`; the document ends inside the function. -/
def opsDemoTree : TSNode :=
  TSNode.mk 0 0 1 [TSNode.mk 9 0 0 [], TSNode.mk 1 1 1 [TSNode.mk 9 1 1 []]]

/-- Operator list of the root space of an ops run (empty on failure). -/
def rootOpsOperators (r : Except String (Option Ops)) : List ByteStr :=
  match r with
  | Except.ok (some o) => o.operators
  | _ => []

theorem opsFinalize_two (s s2 : OpsState) (d : Nat) (h : 2 ≤ d) :
    opsFinalize [s, s2] d = [opsCloseInto s2 s] := by
  match d, h with
  | Nat.succ (Nat.succ d), _ => rfl

theorem opsFinalize_usize_two (s s2 : OpsState) :
    opsFinalize [s, s2] USIZE_MAX = [opsCloseInto s2 s] :=
  opsFinalize_two s s2 USIZE_MAX (by norm_num [USIZE_MAX])

/-- Counterexample to C8: on `opsDemoTree` the final `finalize` merges the
function's operator list into the root's stale list by concatenation, so
the returned root space lists the spelling `"+"` twice. -/
theorem c8_counterexample :
    rootOpsOperators (operands_and_operators opsDemoAdapter opsDemoTree none) =
      [[43], [43]] ∧
    ¬ ([[43], [43]] : List ByteStr).Nodup := by
  constructor
  · simp [operands_and_operators, opsLoop, opsIter, opsFinalize_usize_two, opsCloseInto,
      opsRecompute, decodeAll, Ops.new, Ops.merge_ops, HalsteadMaps.new,
      HalsteadMaps.merge, mergeCounts, bumpCount, fromUtf8, applyTopE, spanOf,
      opsDemoAdapter, opsDemoTree, TSNode.children, TSNode.kindId, TSNode.childCount,
      rootOpsOperators]
  · decide

theorem fromUtf8_eq_some {k x : ByteStr} (h : fromUtf8 k = some x) : x = k := by
  unfold fromUtf8 at h
  by_cases hv : isValidUtf8 k = true
  · simp [hv] at h; exact h.symm
  · simp [hv] at h

theorem decodeAll_eq_some : ∀ {l l2 : List ByteStr}, decodeAll l = some l2 → l2 = l := by
  intro l
  induction l with
  | nil =>
    intro l2 h
    unfold decodeAll at h
    cases h
    rfl
  | cons a r ih =>
    intro l2 h
    unfold decodeAll at h
    cases ha : fromUtf8 a with
    | none => rw [ha] at h; simp at h
    | some b =>
      rw [ha] at h
      cases hr : decodeAll r with
      | none => rw [hr] at h; simp at h
      | some bs =>
        rw [hr] at h
        cases h
        rw [fromUtf8_eq_some ha, ih hr]

/-- C8 amended: the per-node list refresh always produces duplicate-free
lists — the operand list is the (distinct) key list of the merged maps, and
the operator list is its image under the spelling table, distinct whenever
the table is injective on those keys — while merging a closed child
concatenates the child's lists onto the parent's verbatim, which is where
repeats arise for a scope closed after a child merge with no later visited
node (the root of a file that ends inside a function). -/
theorem c8_amended_lists (A : Adapter) (node : TSNode) (st : OpsState) (a b : Ops)
    (hdup : ((A.halsteadCompute node st.halstead_maps).operands.map Prod.fst).Nodup)
    (hodup : ((A.halsteadCompute node st.halstead_maps).operators.map Prod.fst).Nodup)
    (hinj : ∀ k1 ∈ (A.halsteadCompute node st.halstead_maps).operators.map Prod.fst,
      ∀ k2 ∈ (A.halsteadCompute node st.halstead_maps).operators.map Prod.fst,
      A.getOperatorIdAsStr k1 = A.getOperatorIdAsStr k2 → k1 = k2) :
    (∀ st2, opsRecompute A node st = Except.ok st2 →
      st2.ops.operands.Nodup ∧ st2.ops.operators.Nodup) ∧
    (a.merge_ops b).operands = a.operands ++ b.operands ∧
    (a.merge_ops b).operators = a.operators ++ b.operators := by
  refine ⟨?_, rfl, rfl⟩
  intro st2 h
  unfold opsRecompute at h
  simp only [] at h
  split at h
  next => exact absurd h (by simp)
  next decoded heq =>
    cases h
    constructor
    · simpa [decodeAll_eq_some heq] using hdup
    · have hmm : (A.halsteadCompute node st.halstead_maps).operators.map
          (fun p => A.getOperatorIdAsStr p.1) =
          ((A.halsteadCompute node st.halstead_maps).operators.map Prod.fst).map
            A.getOperatorIdAsStr := by
        simp [List.map_map, Function.comp_def]
      simpa [hmm] using List.Nodup.map_on hinj hodup

/-- Witness for the amended C8 at a concrete node and state. -/
theorem c8_amended_lists_witness :
    ((Ops.new opsDemoAdapter opsDemoTree SpaceKind.Unit).merge_ops
        (Ops.new opsDemoAdapter opsDemoTree SpaceKind.Unit)).operands =
      (Ops.new opsDemoAdapter opsDemoTree SpaceKind.Unit).operands ++
        (Ops.new opsDemoAdapter opsDemoTree SpaceKind.Unit).operands := by
  have h := c8_amended_lists opsDemoAdapter (TSNode.mk 9 0 0 [])
    ⟨Ops.new opsDemoAdapter opsDemoTree SpaceKind.Unit, HalsteadMaps.new⟩
    (Ops.new opsDemoAdapter opsDemoTree SpaceKind.Unit)
    (Ops.new opsDemoAdapter opsDemoTree SpaceKind.Unit)
    (by simp [opsDemoAdapter, HalsteadMaps.new, bumpCount, TSNode.kindId])
    (by simp [opsDemoAdapter, HalsteadMaps.new, bumpCount, TSNode.kindId])
    (by
      intro k1 h1 k2 h2 _
      simp [opsDemoAdapter, HalsteadMaps.new, bumpCount, TSNode.kindId] at h1 h2
      rw [h1, h2])
  exact h.2.1

theorem TSNode.size_pos (t : TSNode) : 0 < t.size := by
  cases t; simp only [TSNode.size]; omega

/-- Hypothesis on an adapter's Halstead hook: every operand key it returns
was either already in the map or is valid UTF-8 (the claim's "every
collected operand byte-string is valid UTF-8"). -/
def OperandKeysValid (A : Adapter) : Prop :=
  ∀ (node : TSNode) (m : HalsteadMaps) (k : ByteStr),
    k ∈ (A.halsteadCompute node m).operands.map Prod.fst →
    k ∈ m.operands.map Prod.fst ∨ isValidUtf8 k = true

/-- All operand keys of a map are valid UTF-8. -/
def MapsOperandsValid (m : HalsteadMaps) : Prop :=
  ∀ k ∈ m.operands.map Prod.fst, isValidUtf8 k = true

/-- All operand keys in every open scope's maps are valid UTF-8. -/
def StackValid (ss : List OpsState) : Prop :=
  ∀ st ∈ ss, MapsOperandsValid st.halstead_maps

theorem keys_bumpCount {α : Type} [DecidableEq α] (l : List (α × Nat))
    (k0 : α) (n : Nat) :
    (bumpCount l k0 n).map Prod.fst = l.map Prod.fst ∨
    (bumpCount l k0 n).map Prod.fst = l.map Prod.fst ++ [k0] := by
  induction l with
  | nil => exact Or.inr rfl
  | cons p rest ih =>
    obtain ⟨a, c⟩ := p
    by_cases ha : a = k0
    · left; simp [bumpCount, ha]
    · rcases ih with h | h
      · left; simp [bumpCount, ha, h]
      · right; simp [bumpCount, ha, h]

theorem mem_keys_bumpCount {α : Type} [DecidableEq α] (l : List (α × Nat))
    (k0 : α) (n : Nat) (k : α) (h : k ∈ (bumpCount l k0 n).map Prod.fst) :
    k ∈ l.map Prod.fst ∨ k = k0 := by
  rcases keys_bumpCount l k0 n with he | he
  · rw [he] at h; exact Or.inl h
  · rw [he, List.mem_append] at h
    rcases h with h | h
    · exact Or.inl h
    · exact Or.inr (by simpa using h)

theorem mem_keys_mergeCounts {α : Type} [DecidableEq α] (b a : List (α × Nat))
    (k : α) (h : k ∈ (mergeCounts a b).map Prod.fst) :
    k ∈ a.map Prod.fst ∨ k ∈ b.map Prod.fst := by
  induction b generalizing a with
  | nil => exact Or.inl h
  | cons p r ih =>
    have hstep : mergeCounts a (p :: r) = mergeCounts (bumpCount a p.1 p.2) r := rfl
    rw [hstep] at h
    rcases ih _ h with h2 | h2
    · rcases mem_keys_bumpCount a p.1 p.2 k h2 with h3 | h3
      · exact Or.inl h3
      · exact Or.inr (by rw [h3]; exact List.mem_map.mpr ⟨p, by simp, rfl⟩)
    · refine Or.inr ?_
      have : (p :: r).map Prod.fst = p.1 :: r.map Prod.fst := by simp
      rw [this]
      exact List.mem_cons_of_mem p.1 h2

theorem decodeAll_of_valid (l : List ByteStr)
    (h : ∀ k ∈ l, isValidUtf8 k = true) : decodeAll l = some l := by
  induction l with
  | nil => rfl
  | cons a r ih =>
    have ha : fromUtf8 a = some a := by
      simp [fromUtf8, h a (by simp)]
    unfold decodeAll
    rw [ha, ih (fun k hk => h k (by simp [hk]))]

theorem opsRecompute_ok (A : Adapter) (hA : OperandKeysValid A) (node : TSNode)
    (st : OpsState) (hv : MapsOperandsValid st.halstead_maps) :
    ∃ st2, opsRecompute A node st = Except.ok st2 ∧
      MapsOperandsValid st2.halstead_maps := by
  have hv2 : MapsOperandsValid (A.halsteadCompute node st.halstead_maps) := by
    intro k hk
    rcases hA node st.halstead_maps k hk with h | h
    · exact hv k h
    · exact h
  have hd := decodeAll_of_valid
    ((A.halsteadCompute node st.halstead_maps).operands.map Prod.fst) hv2
  refine ⟨{ st with
      halstead_maps := A.halsteadCompute node st.halstead_maps
      ops := { st.ops with
        operators := (A.halsteadCompute node st.halstead_maps).operators.map
          (fun p => A.getOperatorIdAsStr p.1)
        operands := (A.halsteadCompute node st.halstead_maps).operands.map Prod.fst } },
    ?_, ?_⟩
  · unfold opsRecompute
    simp only []
    rw [hd]
  · exact hv2

theorem applyTopE_recompute_ok (A : Adapter) (hA : OperandKeysValid A)
    (node : TSNode) (ss : List OpsState) (hv : StackValid ss) :
    ∃ ss2, applyTopE (opsRecompute A node) ss = Except.ok ss2 ∧ StackValid ss2 := by
  cases ss with
  | nil => exact ⟨[], rfl, hv⟩
  | cons s r =>
    obtain ⟨st2, h2, hv2⟩ := opsRecompute_ok A hA node s (hv s (by simp))
    refine ⟨st2 :: r, ?_, ?_⟩
    · simp [applyTopE, h2]
    · intro st hst
      rcases List.mem_cons.mp hst with rfl | hst
      · exact hv2
      · exact hv st (List.mem_cons_of_mem s hst)

theorem opsCloseInto_valid (p c : OpsState) (hp : MapsOperandsValid p.halstead_maps)
    (hc : MapsOperandsValid c.halstead_maps) :
    MapsOperandsValid (opsCloseInto p c).halstead_maps := by
  intro k hk
  have : k ∈ (mergeCounts p.halstead_maps.operands c.halstead_maps.operands).map Prod.fst := hk
  rcases mem_keys_mergeCounts _ _ k this with h | h
  · exact hp k h
  · exact hc k h

theorem opsFinalize_valid (ss : List OpsState) (d : Nat) (hv : StackValid ss) :
    StackValid (opsFinalize ss d) := by
  induction ss, d using opsFinalize.induct with
  | case1 ss => simpa [opsFinalize] using hv
  | case2 => simpa [opsFinalize] using hv
  | case3 s => simpa [opsFinalize] using hv
  | case4 s s2 r d ih =>
    have hstep : opsFinalize (s :: s2 :: r) (Nat.succ d) =
        opsFinalize (opsCloseInto s2 s :: r) d := by
      simp [opsFinalize]
    rw [hstep]
    apply ih
    intro st hst
    rcases List.mem_cons.mp hst with rfl | hst
    · exact opsCloseInto_valid s2 s (hv s2 (by simp)) (hv s (by simp))
    · exact hv st (by simp [hst])

theorem emptyMaps_valid : MapsOperandsValid HalsteadMaps.new := by
  intro k hk
  simp [HalsteadMaps.new] at hk

/-- Restatement of one iteration of the ops loop with its lets expanded. -/
theorem opsIter_unfold (A : Adapter) (node : TSNode) (level : Nat)
    (ss : List OpsState) (ll : Nat) :
    opsIter A node level ss ll =
      (match applyTopE (opsRecompute A node)
          (if A.isFunc node || A.isFuncSpace node then
            { ops := Ops.new A node (A.getSpaceKind node),
              halstead_maps := HalsteadMaps.new } ::
              (if level < ll then opsFinalize ss (ll - level) else ss)
          else (if level < ll then opsFinalize ss (ll - level) else ss)) with
      | Except.error e => Except.error e
      | Except.ok ss2 =>
        Except.ok (ss2,
          (if A.isFunc node || A.isFuncSpace node then level + 1
           else if level < ll then level else ll),
          (if A.isFunc node || A.isFuncSpace node then level + 1 else level))) := rfl

theorem opsIter_ok (A : Adapter) (hA : OperandKeysValid A) (node : TSNode)
    (level : Nat) (ss : List OpsState) (ll : Nat) (hv : StackValid ss) :
    ∃ out, opsIter A node level ss ll = Except.ok out ∧ StackValid out.1 := by
  rw [opsIter_unfold]
  have hv0 : StackValid (if level < ll then opsFinalize ss (ll - level) else ss) := by
    split
    · exact opsFinalize_valid ss _ hv
    · exact hv
  have hv1 : StackValid
      (if A.isFunc node || A.isFuncSpace node then
        { ops := Ops.new A node (A.getSpaceKind node),
          halstead_maps := HalsteadMaps.new } ::
          (if level < ll then opsFinalize ss (ll - level) else ss)
      else (if level < ll then opsFinalize ss (ll - level) else ss)) := by
    split
    · intro st hst
      rcases List.mem_cons.mp hst with rfl | hst
      · exact emptyMaps_valid
      · exact hv0 st hst
    · exact hv0
  obtain ⟨ss2, h2, hv2⟩ := applyTopE_recompute_ok A hA node _ hv1
  rw [h2]
  exact ⟨_, rfl, hv2⟩

theorem opsLoop_ok (A : Adapter) (hA : OperandKeysValid A) :
    ∀ (n : Nat) (stack : List (TSNode × Nat)) (ss : List OpsState) (ll : Nat),
      stackSize stack ≤ n → StackValid ss →
      ∃ ss2, opsLoop A stack ss ll = Except.ok ss2 ∧ StackValid ss2 := by
  intro n
  induction n with
  | zero =>
    intro stack ss ll hsz hv
    cases stack with
    | nil => exact ⟨ss, by simp [opsLoop], hv⟩
    | cons p rest =>
      exfalso
      obtain ⟨node, level⟩ := p
      have := TSNode.size_pos node
      simp [stackSize] at hsz
      omega
  | succ n ih =>
    intro stack ss ll hsz hv
    cases stack with
    | nil => exact ⟨ss, by simp [opsLoop], hv⟩
    | cons p rest =>
      obtain ⟨node, level⟩ := p
      obtain ⟨out, hIter, hvOut⟩ := opsIter_ok A hA node level ss ll hv
      obtain ⟨ss2, ll1, nl⟩ := out
      have hsz2 : stackSize (node.children.map (fun c => (c, nl)) ++ rest) ≤ n := by
        rw [stackSize_append, stackSize_map_children]
        have h1 : TSNode.sizeForest node.children + 1 = node.size := by
          rw [TSNode.size_eq]; omega
        simp [stackSize] at hsz
        omega
      obtain ⟨ss3, h3, hv3⟩ := ih _ ss2 ll1 hsz2 hvOut
      refine ⟨ss3, ?_, hv3⟩
      simp only [opsLoop]
      rw [hIter]
      exact h3

/-- C10: when every operand byte-string the Halstead hook collects is valid
UTF-8, `operands_and_operators` completes without panicking — the UTF-8
`unwrap` in the operand-decoding step is unreachable. -/
theorem c10_operands_utf8_no_panic (A : Adapter) (root : TSNode)
    (path : Option ByteStr) (hA : OperandKeysValid A) :
    ∃ r, operands_and_operators A root path = Except.ok r := by
  have hvnil : StackValid ([] : List OpsState) := by
    intro st hst; simp at hst
  obtain ⟨ss2, h2, _⟩ :=
    opsLoop_ok A hA (stackSize [(root, 0)]) [(root, 0)] [] 0 le_rfl hvnil
  unfold operands_and_operators
  rw [h2]
  exact ⟨_, rfl⟩

theorem opsDemoAdapter_keys_valid : OperandKeysValid opsDemoAdapter := by
  intro node m k hk
  left
  simp only [opsDemoAdapter] at hk
  split at hk
  · exact hk
  · exact hk

/-- Witness for C10 at the concrete demo adapter and tree. -/
theorem c10_operands_utf8_no_panic_witness :
    (operands_and_operators opsDemoAdapter opsDemoTree none).isOk = true := by
  obtain ⟨r, hr⟩ :=
    c10_operands_utf8_no_panic opsDemoAdapter opsDemoTree none opsDemoAdapter_keys_valid
  rw [hr]
  rfl

/-- A node opens a space: `is_func(node) || is_func_space(node)`. -/
def opener (A : Adapter) (t : TSNode) : Bool := A.isFunc t || A.isFuncSpace t

/-- The `unit` flag passed to the line-count hook for a node. -/
def unitFlag (A : Adapter) (t : TSNode) : Bool :=
  decide (A.getSpaceKind t = SpaceKind.Unit)

/-- The fresh scope state pushed for an opening node. -/
def newSBState (A : Adapter) (t : TSNode) : SBState :=
  { space := FuncSpace.new A t (A.getSpaceKind t), halstead_maps := HalsteadMaps.new }

/-- One pop of the metrics `finalize` on a stack of at least two scopes
(identity otherwise). -/
def closeStep (A : Adapter) (cm : Option ChosenMetrics) : List SBState → List SBState
  | s :: s2 :: r => closeInto A cm s2 s :: r
  | ss => ss

/-- `k` successive pops of the metrics `finalize`. -/
def closePops (A : Adapter) (cm : Option ChosenMetrics) : Nat → List SBState → List SBState
  | 0, ss => ss
  | Nat.succ k, ss => closePops A cm k (closeStep A cm ss)

/-- The open-scope stack after processing a sibling list `ts` whose items
the traversal pops at stack level `base`, starting from stack `ss`: each
sibling first closes the chain left open above `base`, an opening sibling
pushes a fresh scope, the node's hooks are applied to the top, and the
sibling's child forest is processed one level deeper.  This is the
denotation of the iterative loop on the pending items of `ts`. -/
def specSibs (A : Adapter) (cm : Option ChosenMetrics) :
    List TSNode → List SBState → Nat → List SBState
  | [], ss, _ => ss
  | t :: ts, ss, base =>
    specSibs A cm ts
      (specSibs A cm t.children
        (applyTop (nodeCompute A cm t (opener A t) (unitFlag A t))
          (if opener A t then
            newSBState A t :: closePops A cm (ss.length - base) ss
          else closePops A cm (ss.length - base) ss))
        (if opener A t then base + 1 else base))
      base
termination_by ts _ _ => TSNode.sizeForest ts
decreasing_by
  all_goals simp [TSNode.sizeForest, TSNode.size_eq]
  all_goals (have _h9 := TSNode.size_pos t; omega)

mutual

/-- The finished (but not yet `compute_halstead_and_mi`-computed) scope
opened at node `t`: the fresh state receives `t`'s own hooks, then `t`'s
child forest. -/
def scopePre (A : Adapter) (cm : Option ChosenMetrics) (t : TSNode) : SBState :=
  procForest A cm t.children
    (nodeCompute A cm t (opener A t) (unitFlag A t) (newSBState A t))
termination_by (t.size, 0)
decreasing_by
  simp [Prod.lex_def, TSNode.size_eq]
  try omega

/-- Processes a forest inside the current scope `st`. -/
def procForest (A : Adapter) (cm : Option ChosenMetrics) :
    List TSNode → SBState → SBState
  | [], st => st
  | t :: ts, st => procForest A cm ts (procTree A cm t st)
termination_by ts _ => (TSNode.sizeForest ts, 2)
decreasing_by
  · simp [Prod.lex_def, TSNode.sizeForest]
    try (have _h9 := TSNode.size_pos t; omega)
  · simp [Prod.lex_def, TSNode.sizeForest]
    try (have _h9 := TSNode.size_pos t; omega)

/-- Processes one tree inside the current scope `st`: an opener contributes
its finished scope through one `finalize` pop (`closeInto`); any other node
contributes its hooks and recurses. -/
def procTree (A : Adapter) (cm : Option ChosenMetrics) (t : TSNode) (st : SBState) :
    SBState :=
  if opener A t then closeInto A cm st (scopePre A cm t)
  else procForest A cm t.children (nodeCompute A cm t (opener A t) (unitFlag A t) st)
termination_by (t.size, 1)
decreasing_by
  · simp [Prod.lex_def]
  · simp [Prod.lex_def, TSNode.size_eq]
    try omega

end

/-- The finished scope of opener `t` as it is merged into its parent: the
collapsed chain of `t`'s subtree, recomputed by `compute_halstead_and_mi`
at close. -/
def finalScope (A : Adapter) (cm : Option ChosenMetrics) (t : TSNode) : SBState :=
  compute_hm A cm (scopePre A cm t)

theorem applyTop_length {α : Type} (f : α → α) (ss : List α) :
    (applyTop f ss).length = ss.length := by
  cases ss <;> simp [applyTop]

theorem closePops_length (A : Adapter) (cm : Option ChosenMetrics) :
    ∀ (k : Nat) (ss : List SBState), k + 1 ≤ ss.length →
    (closePops A cm k ss).length = ss.length - k := by
  intro k
  induction k with
  | zero => intro ss h; simp [closePops]
  | succ k ih =>
    intro ss h
    cases ss with
    | nil => simp at h
    | cons s ss1 =>
      cases ss1 with
      | nil => simp at h
      | cons s2 r =>
        have hstep : closePops A cm (Nat.succ k) (s :: s2 :: r) =
            closePops A cm k (closeInto A cm s2 s :: r) := rfl
        rw [hstep, ih _ (by simp at h ⊢; omega)]
        simp only [List.length_cons]
        omega

theorem finalizeSB_eq_closePops (A : Adapter) (cm : Option ChosenMetrics) :
    ∀ (k : Nat) (ss : List SBState), k + 1 ≤ ss.length →
    finalizeSB A cm ss k = Except.ok (closePops A cm k ss) := by
  intro k
  induction k with
  | zero => intro ss h; simp [finalizeSB, closePops]
  | succ k ih =>
    intro ss h
    cases ss with
    | nil => simp at h
    | cons s ss1 =>
      cases ss1 with
      | nil => simp at h
      | cons s2 r =>
        have hstep : finalizeSB A cm (s :: s2 :: r) (Nat.succ k) =
            finalizeSB A cm (closeInto A cm s2 s :: r) k := rfl
        have hstep2 : closePops A cm (Nat.succ k) (s :: s2 :: r) =
            closePops A cm k (closeInto A cm s2 s :: r) := rfl
        rw [hstep, hstep2, ih _ (by simp at h ⊢; omega)]

/-- One iteration of the metrics loop at an in-invariant state (stack level
`base` between 1 and the open-scope count, `last_level` equal to the
open-scope count) closes the chain down to `base`, pushes a scope when the
node opens one, and applies the node's hooks to the top. -/
theorem metricsIter_eq (A : Adapter) (cm : Option ChosenMetrics) (t : TSNode)
    (base : Nat) (ss : List SBState) (h1 : 1 ≤ base) (h2 : base ≤ ss.length) :
    metricsIter A cm t base ss ss.length =
      Except.ok
        (applyTop (nodeCompute A cm t (opener A t) (unitFlag A t))
          (if opener A t then newSBState A t :: closePops A cm (ss.length - base) ss
           else closePops A cm (ss.length - base) ss),
         (if opener A t then base + 1 else base),
         (if opener A t then base + 1 else base)) := by
  unfold metricsIter
  by_cases hlt : base < ss.length
  · rw [if_pos hlt, finalizeSB_eq_closePops A cm (ss.length - base) ss (by omega)]
    simp only [if_pos hlt]
    rfl
  · have he : ss.length = base := by omega
    rw [if_neg hlt]
    simp only [if_neg hlt]
    simp only [he, Nat.sub_self, closePops]
    rfl

theorem specSibs_len_ge (A : Adapter) (cm : Option ChosenMetrics) :
    ∀ (n : Nat) (ts : List TSNode) (ss : List SBState) (base : Nat),
      TSNode.sizeForest ts ≤ n → 1 ≤ base → base ≤ ss.length →
      base ≤ (specSibs A cm ts ss base).length := by
  intro n
  induction n with
  | zero =>
    intro ts ss base hsz h1 h2
    cases ts with
    | nil => simpa [specSibs] using h2
    | cons t ts2 =>
      exfalso
      have := TSNode.size_pos t
      simp [TSNode.sizeForest] at hsz
      omega
  | succ n ih =>
    intro ts ss base hsz h1 h2
    cases ts with
    | nil => simpa [specSibs] using h2
    | cons t ts2 =>
      have hexp : TSNode.sizeForest (t :: ts2) =
          1 + TSNode.sizeForest t.children + TSNode.sizeForest ts2 := by
        simp only [TSNode.sizeForest, TSNode.size_eq]
      have hszc : TSNode.sizeForest t.children ≤ n := by omega
      have hszr : TSNode.sizeForest ts2 ≤ n := by omega
      have hclose : (closePops A cm (ss.length - base) ss).length = base := by
        rw [closePops_length A cm _ _ (by omega)]
        omega
      simp only [specSibs]
      set base2 := if opener A t then base + 1 else base with hbase2
      set ssmid := applyTop (nodeCompute A cm t (opener A t) (unitFlag A t))
          (if opener A t then newSBState A t :: closePops A cm (ss.length - base) ss
           else closePops A cm (ss.length - base) ss) with hssmid
      have hmidlen : ssmid.length = base2 := by
        rw [hssmid, hbase2, applyTop_length]
        by_cases hop : opener A t = true <;> simp [hop, hclose]
      have hinner : base2 ≤ (specSibs A cm t.children ssmid base2).length := by
        apply ih t.children ssmid base2 hszc
        · rw [hbase2]; by_cases hop : opener A t = true <;> (simp [hop]; try omega)
        · omega
      have hb2 : base ≤ base2 := by
        rw [hbase2]; by_cases hop : opener A t = true <;> simp [hop]
      exact ih ts2 _ base hszr h1 (le_trans hb2 hinner)

theorem metricsLoop_nil (A : Adapter) (cm : Option ChosenMetrics)
    (ss : List SBState) (ll : Nat) :
    metricsLoop A cm [] ss ll = Except.ok ss := by
  simp [metricsLoop]

theorem metricsLoop_cons_ok (A : Adapter) (cm : Option ChosenMetrics)
    (node : TSNode) (level : Nat) (rest : List (TSNode × Nat)) (ss : List SBState)
    (ll : Nat) (ss2 : List SBState) (ll1 nl : Nat)
    (h : metricsIter A cm node level ss ll = Except.ok (ss2, ll1, nl)) :
    metricsLoop A cm ((node, level) :: rest) ss ll =
      metricsLoop A cm (node.children.map (fun c => (c, nl)) ++ rest) ss2 ll1 := by
  rw [metricsLoop, h]

/-- Main simulation lemma: running the iterative loop over the pending items
of a sibling list `ts`, all at stack level `base`, transforms the state
exactly as the recursive denotation `specSibs` describes, leaving the
continuation `rest` and the `last_level = length` invariant intact. -/
theorem metricsLoop_spec (A : Adapter) (cm : Option ChosenMetrics) :
    ∀ (n : Nat) (ts : List TSNode) (base : Nat) (rest : List (TSNode × Nat))
      (ss : List SBState),
      TSNode.sizeForest ts ≤ n → 1 ≤ base → base ≤ ss.length →
      metricsLoop A cm (ts.map (fun t => (t, base)) ++ rest) ss ss.length =
        metricsLoop A cm rest (specSibs A cm ts ss base)
          (specSibs A cm ts ss base).length := by
  intro n
  induction n with
  | zero =>
    intro ts base rest ss hsz h1 h2
    cases ts with
    | nil => simp [specSibs]
    | cons t ts2 =>
      exfalso
      have := TSNode.size_pos t
      simp [TSNode.sizeForest] at hsz
      omega
  | succ n ih =>
    intro ts base rest ss hsz h1 h2
    cases ts with
    | nil => simp [specSibs]
    | cons t ts2 =>
      have hexp : TSNode.sizeForest (t :: ts2) =
          1 + TSNode.sizeForest t.children + TSNode.sizeForest ts2 := by
        simp only [TSNode.sizeForest, TSNode.size_eq]
      have hszc : TSNode.sizeForest t.children ≤ n := by omega
      have hszr : TSNode.sizeForest ts2 ≤ n := by omega
      have hclose : (closePops A cm (ss.length - base) ss).length = base := by
        rw [closePops_length A cm _ _ (by omega)]
        omega
      have hIter := metricsIter_eq A cm t base ss h1 h2
      rw [List.map_cons, List.cons_append]
      by_cases hop : opener A t = true
      · have hIter2 : metricsIter A cm t base ss ss.length = Except.ok
            (applyTop (nodeCompute A cm t (opener A t) (unitFlag A t))
              (newSBState A t :: closePops A cm (ss.length - base) ss),
             base + 1, base + 1) := by
          rw [hIter]; simp [hop]
        rw [metricsLoop_cons_ok A cm t base
          (ts2.map (fun t => (t, base)) ++ rest) ss ss.length _ _ _ hIter2]
        set SS2 := applyTop (nodeCompute A cm t (opener A t) (unitFlag A t))
          (newSBState A t :: closePops A cm (ss.length - base) ss) with hSS2
        have hlen2 : SS2.length = base + 1 := by
          rw [hSS2, applyTop_length]
          simp [hclose]
        have hIH := ih t.children (base + 1) (ts2.map (fun t => (t, base)) ++ rest)
          SS2 hszc (by omega) (by omega)
        rw [hlen2] at hIH
        rw [hIH]
        have hinner : base + 1 ≤ (specSibs A cm t.children SS2 (base + 1)).length :=
          specSibs_len_ge A cm (TSNode.sizeForest t.children) t.children SS2 (base + 1)
            le_rfl (by omega) (by omega)
        have hIH2 := ih ts2 base rest (specSibs A cm t.children SS2 (base + 1))
          hszr h1 (by omega)
        rw [hIH2]
        have hRHS : specSibs A cm (t :: ts2) ss base =
            specSibs A cm ts2 (specSibs A cm t.children SS2 (base + 1)) base := by
          rw [specSibs]
          simp [hop, hSS2]
        rw [hRHS]
      · have hIter2 : metricsIter A cm t base ss ss.length = Except.ok
            (applyTop (nodeCompute A cm t (opener A t) (unitFlag A t))
              (closePops A cm (ss.length - base) ss),
             base, base) := by
          rw [hIter]; simp [hop]
        rw [metricsLoop_cons_ok A cm t base
          (ts2.map (fun t => (t, base)) ++ rest) ss ss.length _ _ _ hIter2]
        set SS2 := applyTop (nodeCompute A cm t (opener A t) (unitFlag A t))
          (closePops A cm (ss.length - base) ss) with hSS2
        have hlen2 : SS2.length = base := by
          rw [hSS2, applyTop_length, hclose]
        have hIH := ih t.children base (ts2.map (fun t => (t, base)) ++ rest)
          SS2 hszc h1 (by omega)
        rw [hlen2] at hIH
        rw [hIH]
        have hinner : base ≤ (specSibs A cm t.children SS2 base).length :=
          specSibs_len_ge A cm (TSNode.sizeForest t.children) t.children SS2 base
            le_rfl h1 (by omega)
        have hIH2 := ih ts2 base rest (specSibs A cm t.children SS2 base)
          hszr h1 hinner
        rw [hIH2]
        have hopf : opener A t = false := by
          revert hop; cases opener A t <;> simp
        have hRHS : specSibs A cm (t :: ts2) ss base =
            specSibs A cm ts2 (specSibs A cm t.children SS2 base) base := by
          rw [specSibs]
          simp [hopf, hSS2]
        rw [hRHS]

theorem closePops_add (A : Adapter) (cm : Option ChosenMetrics) :
    ∀ (a b : Nat) (ss : List SBState),
    closePops A cm (a + b) ss = closePops A cm b (closePops A cm a ss) := by
  intro a
  induction a with
  | zero => intro b ss; rw [Nat.zero_add]; rfl
  | succ a ih =>
    intro b ss
    have h1 : Nat.succ a + b = Nat.succ (a + b) := by omega
    rw [h1]
    show closePops A cm (a + b) (closeStep A cm ss) = _
    rw [ih b (closeStep A cm ss)]
    rfl

theorem closeStep_len_le (A : Adapter) (cm : Option ChosenMetrics) (ss : List SBState) :
    (closeStep A cm ss).length ≤ ss.length := by
  cases ss with
  | nil => simp [closeStep]
  | cons s r =>
    cases r with
    | nil => simp [closeStep]
    | cons s2 r2 => simp [closeStep]

theorem closePops_len_le (A : Adapter) (cm : Option ChosenMetrics) :
    ∀ (k : Nat) (ss : List SBState), (closePops A cm k ss).length ≤ ss.length := by
  intro k
  induction k with
  | zero => intro ss; simp [closePops]
  | succ k ih =>
    intro ss
    calc (closePops A cm (Nat.succ k) ss).length
        = (closePops A cm k (closeStep A cm ss)).length := rfl
      _ ≤ (closeStep A cm ss).length := ih _
      _ ≤ ss.length := closeStep_len_le A cm ss

theorem specSibs_len_le (A : Adapter) (cm : Option ChosenMetrics) :
    ∀ (n : Nat) (ts : List TSNode) (ss : List SBState) (base : Nat),
      TSNode.sizeForest ts ≤ n →
      (specSibs A cm ts ss base).length ≤ ss.length + TSNode.sizeForest ts := by
  intro n
  induction n with
  | zero =>
    intro ts ss base hsz
    cases ts with
    | nil => simp [specSibs]
    | cons t ts2 =>
      exfalso
      have := TSNode.size_pos t
      simp [TSNode.sizeForest] at hsz
      omega
  | succ n ih =>
    intro ts ss base hsz
    cases ts with
    | nil => simp [specSibs]
    | cons t ts2 =>
      have hexp : TSNode.sizeForest (t :: ts2) =
          1 + TSNode.sizeForest t.children + TSNode.sizeForest ts2 := by
        simp only [TSNode.sizeForest, TSNode.size_eq]
      have hszc : TSNode.sizeForest t.children ≤ n := by omega
      have hszr : TSNode.sizeForest ts2 ≤ n := by omega
      rw [specSibs]
      set ssmid := applyTop (nodeCompute A cm t (opener A t) (unitFlag A t))
          (if opener A t then newSBState A t :: closePops A cm (ss.length - base) ss
           else closePops A cm (ss.length - base) ss) with hssmid
      have hmid : ssmid.length ≤ ss.length + 1 := by
        rw [hssmid, applyTop_length]
        have hc := closePops_len_le A cm (ss.length - base) ss
        by_cases hop : opener A t = true
        · simp only [hop, if_pos, List.length_cons]
          omega
        · have hopf : opener A t = false := by
            revert hop; cases opener A t <;> simp
          simp only [hopf]
          simp
          omega
      have h1 := ih t.children ssmid (if opener A t then base + 1 else base) hszc
      have h2 := ih ts2 (specSibs A cm t.children ssmid
        (if opener A t then base + 1 else base)) base hszr
      omega

theorem finalizeSB_shift (A : Adapter) (cm : Option ChosenMetrics) :
    ∀ (k : Nat) (ss : List SBState) (d : Nat), k + 1 ≤ ss.length → k ≤ d →
    finalizeSB A cm ss d = finalizeSB A cm (closePops A cm k ss) (d - k) := by
  intro k
  induction k with
  | zero => intro ss d h1 h2; rfl
  | succ k ih =>
    intro ss d h1 h2
    cases ss with
    | nil => simp at h1
    | cons s ss1 =>
      cases ss1 with
      | nil => simp at h1
      | cons s2 r =>
        cases d with
        | zero => omega
        | succ d =>
          have hstep : finalizeSB A cm (s :: s2 :: r) (Nat.succ d) =
              finalizeSB A cm (closeInto A cm s2 s :: r) d := rfl
          have hstep2 : closePops A cm (Nat.succ k) (s :: s2 :: r) =
              closePops A cm k (closeInto A cm s2 s :: r) := rfl
          have harith : Nat.succ d - Nat.succ k = d - k := by omega
          rw [hstep, hstep2, harith]
          exact ih _ d (by simp at h1 ⊢; omega) (by omega)

theorem finalizeSB_drain (A : Adapter) (cm : Option ChosenMetrics)
    (ss : List SBState) (d : Nat) (x : SBState)
    (h1 : 1 ≤ ss.length) (h2 : ss.length ≤ d)
    (hx : closePops A cm (ss.length - 1) ss = [x]) :
    finalizeSB A cm ss d = Except.ok [compute_hm A cm x] := by
  rw [finalizeSB_shift A cm (ss.length - 1) ss d (by omega) (by omega), hx]
  have hd : 1 ≤ d - (ss.length - 1) := by omega
  cases hdd : d - (ss.length - 1) with
  | zero => omega
  | succ d2 => rfl

theorem procForest_cons (A : Adapter) (cm : Option ChosenMetrics) (t : TSNode)
    (ts : List TSNode) (st : SBState) :
    procForest A cm (t :: ts) st = procForest A cm ts (procTree A cm t st) := by
  rw [procForest]

theorem procForest_nil (A : Adapter) (cm : Option ChosenMetrics) (st : SBState) :
    procForest A cm [] st = st := by
  rw [procForest]

theorem procTree_opener (A : Adapter) (cm : Option ChosenMetrics) (t : TSNode)
    (st : SBState) (hop : opener A t = true) :
    procTree A cm t st = closeInto A cm st (scopePre A cm t) := by
  rw [procTree]
  simp [hop]

theorem procTree_non_opener (A : Adapter) (cm : Option ChosenMetrics) (t : TSNode)
    (st : SBState) (hop : opener A t = false) :
    procTree A cm t st =
      procForest A cm t.children
        (nodeCompute A cm t (opener A t) (unitFlag A t) st) := by
  rw [procTree]
  simp [hop]

theorem scopePre_eq (A : Adapter) (cm : Option ChosenMetrics) (t : TSNode) :
    scopePre A cm t =
      procForest A cm t.children
        (nodeCompute A cm t (opener A t) (unitFlag A t) (newSBState A t)) := by
  rw [scopePre]

/-- Collapsing the lazy open chain left by `specSibs` down to its base gives
exactly the eager recursive semantics `procForest`. -/
theorem specSibs_collapse (A : Adapter) (cm : Option ChosenMetrics) :
    ∀ (n : Nat) (ts : List TSNode) (ss : List SBState) (base : Nat) (st : SBState)
      (below : List SBState),
      TSNode.sizeForest ts ≤ n → base = below.length + 1 → base ≤ ss.length →
      closePops A cm (ss.length - base) ss = st :: below →
      closePops A cm ((specSibs A cm ts ss base).length - base)
          (specSibs A cm ts ss base) =
        procForest A cm ts st :: below := by
  intro n
  induction n with
  | zero =>
    intro ts ss base st below hsz hb h2 h4
    cases ts with
    | nil => rw [procForest_nil]; simpa [specSibs] using h4
    | cons t ts2 =>
      exfalso
      have := TSNode.size_pos t
      simp [TSNode.sizeForest] at hsz
      omega
  | succ n ih =>
    intro ts ss base st below hsz hb h2 h4
    cases ts with
    | nil => rw [procForest_nil]; simpa [specSibs] using h4
    | cons t ts2 =>
      have hexp : TSNode.sizeForest (t :: ts2) =
          1 + TSNode.sizeForest t.children + TSNode.sizeForest ts2 := by
        simp only [TSNode.sizeForest, TSNode.size_eq]
      have hszc : TSNode.sizeForest t.children ≤ n := by omega
      have hszr : TSNode.sizeForest ts2 ≤ n := by omega
      by_cases hop : opener A t = true
      · set hooked := nodeCompute A cm t (opener A t) (unitFlag A t) (newSBState A t)
          with hhooked
        set Sc := specSibs A cm t.children (hooked :: st :: below) (base + 1) with hSc
        have hunfold : specSibs A cm (t :: ts2) ss base = specSibs A cm ts2 Sc base := by
          rw [specSibs]
          simp [hop, h4, applyTop, hSc, hhooked]
        have hIH1 := ih t.children (hooked :: st :: below) (base + 1) hooked
          (st :: below) hszc (by simp; omega) (by simp; omega)
          (by
            have hsub : (hooked :: st :: below).length - (base + 1) = 0 := by
              simp; omega
            rw [hsub]
            rfl)
        have hlenSc : base + 1 ≤ Sc.length := by
          rw [hSc]
          exact specSibs_len_ge A cm (TSNode.sizeForest t.children) t.children _ _
            le_rfl (by omega) (by simp; omega)
        have hstep : closePops A cm (Sc.length - base) Sc = procTree A cm t st :: below := by
          have harith : Sc.length - base = (Sc.length - (base + 1)) + 1 := by omega
          rw [harith, closePops_add, hSc]
          rw [hIH1]
          have hscope : procForest A cm t.children hooked = scopePre A cm t := by
            rw [scopePre_eq, hhooked]
          rw [hscope]
          show closeStep A cm (scopePre A cm t :: st :: below) = _
          rw [procTree_opener A cm t st hop]
          rfl
        have hIH2 := ih ts2 Sc base (procTree A cm t st) below hszr hb
          (by omega) hstep
        rw [hunfold, procForest_cons]
        exact hIH2
      · have hopf : opener A t = false := by
          revert hop; cases opener A t <;> simp
        set hooked := nodeCompute A cm t (opener A t) (unitFlag A t) st with hhooked
        set Sc := specSibs A cm t.children (hooked :: below) base with hSc
        have hunfold : specSibs A cm (t :: ts2) ss base = specSibs A cm ts2 Sc base := by
          rw [specSibs]
          simp [hopf, h4, applyTop, hSc, hhooked]
        have hIH1 := ih t.children (hooked :: below) base hooked below hszc hb
          (by simp; omega)
          (by
            have hsub : (hooked :: below).length - base = 0 := by
              simp; omega
            rw [hsub]
            rfl)
        have hstep : closePops A cm (Sc.length - base) Sc = procTree A cm t st :: below := by
          rw [hSc]
          rw [hIH1]
          rw [procTree_non_opener A cm t st hopf, hhooked]
        have hIH2 := ih ts2 Sc base (procTree A cm t st) below hszr hb
          (by
            have := specSibs_len_ge A cm (TSNode.sizeForest t.children) t.children
              (hooked :: below) base le_rfl (by omega) (by simp; omega)
            rw [hSc]
            omega)
          hstep
        rw [hunfold, procForest_cons]
        exact hIH2

/-- Bridge: on any input whose syntax root opens a space (in every supported
language the root is the file `Unit`), the iterative `metrics` returns
exactly the recursively-described root scope, renamed from the file
path. -/
theorem metrics_eq_spec (A : Adapter) (cm : Option ChosenMetrics) (root : TSNode)
    (path : Option ByteStr) (hroot : opener A root = true)
    (hsz : root.size < 2 ^ 64) :
    metrics A cm root path =
      Except.ok (some { (finalScope A cm root).space with name := path }) := by
  have hfs : (A.isFunc root || A.isFuncSpace root) = true := hroot
  have hIter0 : metricsIter A cm root 0 [] 0 =
      Except.ok ([nodeCompute A cm root (opener A root) (unitFlag A root)
        (newSBState A root)], 1, 1) := by
    unfold metricsIter
    simp [hfs, applyTop, opener, unitFlag, newSBState]
  set SS0 : List SBState :=
    [nodeCompute A cm root (opener A root) (unitFlag A root) (newSBState A root)]
    with hSS0
  have hl : SS0.length = 1 := rfl
  set S := specSibs A cm root.children SS0 1 with hS
  have hloop : metricsLoop A cm [(root, 0)] [] 0 = Except.ok S := by
    rw [metricsLoop_cons_ok A cm root 0 [] [] 0 _ _ _ hIter0]
    have hmain := metricsLoop_spec A cm (TSNode.sizeForest root.children)
      root.children 1 [] SS0 le_rfl (by omega) (by rw [hl])
    rw [hl] at hmain
    rw [hmain, metricsLoop_nil]
  have hSlen1 : 1 ≤ S.length := by
    rw [hS]
    exact specSibs_len_ge A cm (TSNode.sizeForest root.children) root.children SS0 1
      le_rfl (by omega) (by rw [hl])
  have hSle : S.length ≤ USIZE_MAX := by
    have hle := specSibs_len_le A cm (TSNode.sizeForest root.children)
      root.children SS0 1 le_rfl
    have hsf : TSNode.sizeForest root.children + 1 = root.size := by
      rw [TSNode.size_eq]; omega
    have hU : USIZE_MAX = 2 ^ 64 - 1 := rfl
    rw [← hS] at hle
    rw [hl] at hle
    omega
  have hcol : closePops A cm (S.length - 1) S = [scopePre A cm root] := by
    have hc := specSibs_collapse A cm (TSNode.sizeForest root.children)
      root.children SS0 1
      (nodeCompute A cm root (opener A root) (unitFlag A root) (newSBState A root))
      [] le_rfl (by simp) (by rw [hl])
      (by
        have hsub : SS0.length - 1 = 0 := by rw [hl]
        rw [hsub]
        rfl)
    rw [← hS] at hc
    rw [hc, scopePre_eq]
  have hdrain := finalizeSB_drain A cm S USIZE_MAX (scopePre A cm root)
    hSlen1 hSle hcol
  unfold metrics
  rw [hloop]
  show (match finalizeSB A cm S USIZE_MAX with
    | Except.error e => Except.error e
    | Except.ok ss2 =>
      Except.ok (ss2.head?.map (fun st => { st.space with name := path }))) =
    Except.ok (some { (finalScope A cm root).space with name := path })
  rw [hdrain]
  rfl

/-- The opening constructs of a forest in source-document order: a scope
node contributes itself; any other node contributes the openers of its
children, left to right.  These are exactly the spaces a scope containing
this forest acquires as children, in opening order. -/
def topOpeners (A : Adapter) : List TSNode → List TSNode
  | [] => []
  | t :: ts =>
    (if opener A t then [t] else topOpeners A t.children) ++ topOpeners A ts
termination_by ts => TSNode.sizeForest ts
decreasing_by
  all_goals simp [TSNode.sizeForest, TSNode.size_eq]
  all_goals (have _h9 := TSNode.size_pos t; omega)

theorem compute_all_metrics_space_frame (A : Adapter) (t : TSNode) (st : SBState)
    (fs u : Bool) :
    (compute_all_metrics A t st fs u).space.spaces = st.space.spaces ∧
    (compute_all_metrics A t st fs u).space.name = st.space.name ∧
    (compute_all_metrics A t st fs u).space.start_line = st.space.start_line ∧
    (compute_all_metrics A t st fs u).space.end_line = st.space.end_line ∧
    (compute_all_metrics A t st fs u).space.kind = st.space.kind := by
  simp [compute_all_metrics]

theorem certainStep_space_frame (A : Adapter) (t : TSNode) (fs u : Bool)
    (st : SBState) (m : MetricsList) :
    (certainStep A t fs u st m).space.spaces = st.space.spaces ∧
    (certainStep A t fs u st m).space.name = st.space.name ∧
    (certainStep A t fs u st m).space.start_line = st.space.start_line ∧
    (certainStep A t fs u st m).space.end_line = st.space.end_line ∧
    (certainStep A t fs u st m).space.kind = st.space.kind := by
  cases m <;> simp [certainStep]

theorem foldl_certainStep_space_frame (A : Adapter) (t : TSNode) (fs u : Bool) :
    ∀ (l : List MetricsList) (st : SBState),
    (l.foldl (certainStep A t fs u) st).space.spaces = st.space.spaces ∧
    (l.foldl (certainStep A t fs u) st).space.name = st.space.name ∧
    (l.foldl (certainStep A t fs u) st).space.start_line = st.space.start_line ∧
    (l.foldl (certainStep A t fs u) st).space.end_line = st.space.end_line ∧
    (l.foldl (certainStep A t fs u) st).space.kind = st.space.kind := by
  intro l
  induction l with
  | nil => intro st; simp
  | cons m rest ih =>
    intro st
    rw [List.foldl_cons]
    have h1 := certainStep_space_frame A t fs u st m
    have h2 := ih (certainStep A t fs u st m)
    exact ⟨h2.1.trans h1.1, h2.2.1.trans h1.2.1, h2.2.2.1.trans h1.2.2.1,
      h2.2.2.2.1.trans h1.2.2.2.1, h2.2.2.2.2.trans h1.2.2.2.2⟩

theorem compute_certain_metrics_space_frame (A : Adapter) (t : TSNode) (st : SBState)
    (fs u : Bool) (cm : ChosenMetrics) :
    (compute_certain_metrics A t st fs u cm).space.spaces = st.space.spaces ∧
    (compute_certain_metrics A t st fs u cm).space.name = st.space.name ∧
    (compute_certain_metrics A t st fs u cm).space.start_line = st.space.start_line ∧
    (compute_certain_metrics A t st fs u cm).space.end_line = st.space.end_line ∧
    (compute_certain_metrics A t st fs u cm).space.kind = st.space.kind := by
  unfold compute_certain_metrics
  exact foldl_certainStep_space_frame A t fs u cm.chosen_metrics st

theorem nodeCompute_space_frame (A : Adapter) (cm : Option ChosenMetrics)
    (t : TSNode) (fs u : Bool) (st : SBState) :
    (nodeCompute A cm t fs u st).space.spaces = st.space.spaces ∧
    (nodeCompute A cm t fs u st).space.name = st.space.name ∧
    (nodeCompute A cm t fs u st).space.start_line = st.space.start_line ∧
    (nodeCompute A cm t fs u st).space.end_line = st.space.end_line ∧
    (nodeCompute A cm t fs u st).space.kind = st.space.kind := by
  unfold nodeCompute
  cases cm with
  | none => exact compute_all_metrics_space_frame A t st fs u
  | some m =>
    by_cases hfull : m.is_full = true
    · simp only [hfull, if_pos]
      exact compute_all_metrics_space_frame A t st fs u
    · simp only [hfull]
      simp
      have h := compute_certain_metrics_space_frame A t st fs u m
      tauto

theorem compute_hm_space_frame (A : Adapter) (cm : Option ChosenMetrics)
    (st : SBState) :
    (compute_hm A cm st).space.spaces = st.space.spaces ∧
    (compute_hm A cm st).space.name = st.space.name ∧
    (compute_hm A cm st).space.start_line = st.space.start_line ∧
    (compute_hm A cm st).space.end_line = st.space.end_line ∧
    (compute_hm A cm st).space.kind = st.space.kind := by
  unfold compute_hm
  split <;> split <;> simp

theorem closeInto_spaces (A : Adapter) (cm : Option ChosenMetrics)
    (st c : SBState) :
    (closeInto A cm st c).space.spaces =
      st.space.spaces ++ [(compute_hm A cm c).space] := by
  unfold closeInto
  simp [(compute_hm_space_frame A cm _).1]

/-- The children a scope accumulates while processing a forest are exactly
the finished scopes of the forest's openers, in document order. -/
theorem procForest_spaces (A : Adapter) (cm : Option ChosenMetrics) :
    ∀ (n : Nat) (ts : List TSNode) (st : SBState), TSNode.sizeForest ts ≤ n →
    (procForest A cm ts st).space.spaces =
      st.space.spaces ++
        (topOpeners A ts).map (fun u => (finalScope A cm u).space) := by
  intro n
  induction n with
  | zero =>
    intro ts st hsz
    cases ts with
    | nil => simp [procForest_nil, topOpeners]
    | cons t ts2 =>
      exfalso
      have := TSNode.size_pos t
      simp [TSNode.sizeForest] at hsz
      omega
  | succ n ih =>
    intro ts st hsz
    cases ts with
    | nil => simp [procForest_nil, topOpeners]
    | cons t ts2 =>
      have hexp : TSNode.sizeForest (t :: ts2) =
          1 + TSNode.sizeForest t.children + TSNode.sizeForest ts2 := by
        simp only [TSNode.sizeForest, TSNode.size_eq]
      have hszc : TSNode.sizeForest t.children ≤ n := by omega
      have hszr : TSNode.sizeForest ts2 ≤ n := by omega
      rw [procForest_cons, ih ts2 _ hszr]
      by_cases hop : opener A t = true
      · rw [procTree_opener A cm t st hop, closeInto_spaces]
        rw [topOpeners]
        simp [hop, finalScope]
      · have hopf : opener A t = false := by
          revert hop; cases opener A t <;> simp
        rw [procTree_non_opener A cm t st hopf, ih t.children _ hszc]
        rw [topOpeners]
        simp [hopf, (nodeCompute_space_frame A cm t false (unitFlag A t) st).1]

/-- C5: in the tree returned by `metrics`, the children of every space are
the finished scopes of that space's opening constructs in source-document
order (`topOpeners` lists a forest's scope-opening nodes in left-to-right
document order), for every nesting shape, despite the reverse-open closing
order used internally. -/
theorem c5_document_order_children (A : Adapter) (cm : Option ChosenMetrics)
    (root : TSNode) (path : Option ByteStr)
    (hroot : opener A root = true) (hsz : root.size < 2 ^ 64) :
    metrics A cm root path =
      Except.ok (some { (finalScope A cm root).space with name := path }) ∧
    ∀ t : TSNode, (finalScope A cm t).space.spaces =
      (topOpeners A t.children).map (fun u => (finalScope A cm u).space) := by
  refine ⟨metrics_eq_spec A cm root path hroot hsz, ?_⟩
  intro t
  have h1 : (finalScope A cm t).space.spaces = (scopePre A cm t).space.spaces :=
    (compute_hm_space_frame A cm _).1
  rw [h1, scopePre_eq,
    procForest_spaces A cm (TSNode.sizeForest t.children) t.children _ le_rfl]
  rw [(nodeCompute_space_frame A cm t (opener A t) (unitFlag A t)
    (newSBState A t)).1]
  simp [newSBState, FuncSpace.new]

/-- Witness for C5 at a concrete adapter and tree. -/
theorem c5_document_order_children_witness :
    metrics opsDemoAdapter none opsDemoTree none =
      Except.ok (some { (finalScope opsDemoAdapter none opsDemoTree).space with
        name := none }) :=
  (c5_document_order_children opsDemoAdapter none opsDemoTree none rfl
    (by norm_num [show TSNode.size opsDemoTree = 4 from rfl])).1

/-- The `Mi` metric is active: always, when no selection is given, otherwise
when the selection lists it. -/
def miActive (cm : Option ChosenMetrics) : Bool :=
  match cm with
  | none => true
  | some m => m.is_metric MetricsList.Mi

theorem compute_hm_mi (A : Adapter) (cm : Option ChosenMetrics) (st : SBState)
    (hmi : miActive cm = true) :
    (compute_hm A cm st).space.metrics.mi =
      A.miCompute (compute_hm A cm st).space.metrics.loc
        (compute_hm A cm st).space.metrics.cyclomatic
        (compute_hm A cm st).space.metrics.halstead := by
  unfold compute_hm
  cases cm with
  | none => simp
  | some m =>
    have hm : m.is_metric MetricsList.Mi = true := by simpa [miActive] using hmi
    simp [hm]

mutual

/-- A space together with all its descendant spaces. -/
def FuncSpace.allSpaces : FuncSpace → List FuncSpace
  | ⟨n, sl, el, k, sp, m⟩ => ⟨n, sl, el, k, sp, m⟩ :: FuncSpace.allSpacesL sp

/-- All spaces of a list of trees. -/
def FuncSpace.allSpacesL : List FuncSpace → List FuncSpace
  | [] => []
  | c :: cs => FuncSpace.allSpaces c ++ FuncSpace.allSpacesL cs

end

theorem allSpaces_eq (fs : FuncSpace) :
    fs.allSpaces = fs :: FuncSpace.allSpacesL fs.spaces := by
  cases fs; rfl

theorem mem_allSpacesL {x : FuncSpace} :
    ∀ {l : List FuncSpace}, x ∈ FuncSpace.allSpacesL l →
    ∃ c ∈ l, x ∈ c.allSpaces := by
  intro l
  induction l with
  | nil => intro h; simp [FuncSpace.allSpacesL] at h
  | cons c cs ih =>
    intro h
    rw [FuncSpace.allSpacesL, List.mem_append] at h
    rcases h with h | h
    · exact ⟨c, by simp, h⟩
    · obtain ⟨c2, hc2, hx⟩ := ih h
      exact ⟨c2, by simp [hc2], hx⟩

theorem topOpeners_size (A : Adapter) :
    ∀ (n : Nat) (ts : List TSNode) (u : TSNode), TSNode.sizeForest ts ≤ n →
    u ∈ topOpeners A ts → u.size ≤ TSNode.sizeForest ts := by
  intro n
  induction n with
  | zero =>
    intro ts u hsz hu
    cases ts with
    | nil => simp [topOpeners] at hu
    | cons t ts2 =>
      exfalso
      have := TSNode.size_pos t
      simp [TSNode.sizeForest] at hsz
      omega
  | succ n ih =>
    intro ts u hsz hu
    cases ts with
    | nil => simp [topOpeners] at hu
    | cons t ts2 =>
      have hexp : TSNode.sizeForest (t :: ts2) =
          1 + TSNode.sizeForest t.children + TSNode.sizeForest ts2 := by
        simp only [TSNode.sizeForest, TSNode.size_eq]
      have hszc : TSNode.sizeForest t.children ≤ n := by omega
      have hszr : TSNode.sizeForest ts2 ≤ n := by omega
      rw [topOpeners, List.mem_append] at hu
      rcases hu with hu | hu
      · by_cases hop : opener A t = true
        · simp [hop] at hu
          subst hu
          rw [TSNode.size_eq]
          omega
        · have hopf : opener A t = false := by
            revert hop; cases opener A t <;> simp
          simp [hopf] at hu
          have := ih t.children u hszc hu
          omega
      · have := ih ts2 u hszr hu
        omega

/-- Every space in a finished scope's tree carries a maintainability score
equal to its recomputation from that space's stored (fully aggregated)
line, branch and token metrics. -/
theorem mi_ok_tree (A : Adapter) (cm : Option ChosenMetrics)
    (hmi : miActive cm = true) :
    ∀ (n : Nat) (t : TSNode), t.size ≤ n →
    ∀ fs ∈ FuncSpace.allSpaces (finalScope A cm t).space,
      fs.metrics.mi =
        A.miCompute fs.metrics.loc fs.metrics.cyclomatic fs.metrics.halstead := by
  intro n
  induction n with
  | zero =>
    intro t hsz
    exfalso
    have := TSNode.size_pos t
    omega
  | succ n ih =>
    intro t hsz fs hfs
    rw [allSpaces_eq, List.mem_cons] at hfs
    rcases hfs with rfl | hfs
    · exact compute_hm_mi A cm (scopePre A cm t) hmi
    · have hsp : (finalScope A cm t).space.spaces =
          (topOpeners A t.children).map (fun u => (finalScope A cm u).space) := by
        have h1 : (finalScope A cm t).space.spaces = (scopePre A cm t).space.spaces :=
          (compute_hm_space_frame A cm _).1
        rw [h1, scopePre_eq,
          procForest_spaces A cm (TSNode.sizeForest t.children) t.children _ le_rfl]
        rw [(nodeCompute_space_frame A cm t (opener A t) (unitFlag A t)
          (newSBState A t)).1]
        simp [newSBState, FuncSpace.new]
      rw [hsp] at hfs
      obtain ⟨c, hc, hx⟩ := mem_allSpacesL hfs
      rw [List.mem_map] at hc
      obtain ⟨u, hu, rfl⟩ := hc
      have husz : u.size ≤ n := by
        have h1 := topOpeners_size A (TSNode.sizeForest t.children) t.children u
          le_rfl hu
        have h2 : TSNode.sizeForest t.children + 1 = t.size := by
          rw [TSNode.size_eq]; omega
        omega
      exact ih u husz fs hx

/-- C4: maintainability is never obtained by summing children's scores (its
merge is the identity on the receiver); instead every space of the tree
returned by `metrics` stores exactly the score recomputed from that space's
own already-aggregated line, branch and token metrics. -/
theorem c4_mi_recomputed_per_scope (A : Adapter) (cm : Option ChosenMetrics)
    (root : TSNode) (path : Option ByteStr)
    (hroot : opener A root = true) (hsz : root.size < 2 ^ 64)
    (hmi : miActive cm = true) :
    (∀ a b : mi.Stats, a.merge b = a) ∧
    ∃ R : FuncSpace, metrics A cm root path = Except.ok (some R) ∧
      ∀ fs ∈ R.allSpaces,
        fs.metrics.mi =
          A.miCompute fs.metrics.loc fs.metrics.cyclomatic fs.metrics.halstead := by
  refine ⟨fun a b => rfl, ⟨_, metrics_eq_spec A cm root path hroot hsz, ?_⟩⟩
  intro fs hfs
  have hall := mi_ok_tree A cm hmi root.size root le_rfl
  rw [allSpaces_eq, List.mem_cons] at hfs
  rcases hfs with rfl | hfs
  · have h0 := hall (finalScope A cm root).space (by rw [allSpaces_eq]; simp)
    simpa using h0
  · apply hall
    rw [allSpaces_eq]
    right
    simpa using hfs

/-- Witness for C4 at a concrete adapter and tree. -/
theorem c4_mi_recomputed_per_scope_witness :
    (metrics opsDemoAdapter none opsDemoTree none).isOk = true := by
  obtain ⟨hmerge, R, hR, hAll⟩ := c4_mi_recomputed_per_scope opsDemoAdapter none
    opsDemoTree none rfl (by norm_num [show TSNode.size opsDemoTree = 4 from rfl]) rfl
  rw [hR]
  rfl

/-- The metric hooks are additive increments: each application adds to the
relevant counters the amount it would produce on the default accumulator,
and touches nothing else.  Every per-language hook in the repository has
this shape (counters are only ever incremented, by node shape). -/
def AdditiveHooks (A : Adapter) : Prop :=
  (∀ (t : TSNode) (s : cyclomatic.Stats), A.cyclomaticCompute t s =
    { sum := s.sum + (A.cyclomaticCompute t cyclomatic.Stats.default).sum }) ∧
  (∀ (t : TSNode) (s : loc.Stats) (fs u : Bool), A.locCompute t s fs u =
    { strict := s.strict + (A.locCompute t loc.Stats.default fs u).strict
      physical := s.physical + (A.locCompute t loc.Stats.default fs u).physical
      logical := s.logical + (A.locCompute t loc.Stats.default fs u).logical
      comment := s.comment + (A.locCompute t loc.Stats.default fs u).comment
      blank := s.blank + (A.locCompute t loc.Stats.default fs u).blank }) ∧
  (∀ (t : TSNode) (s : nom.Stats), A.nomCompute t s =
    { functions := s.functions + (A.nomCompute t nom.Stats.default).functions
      closures := s.closures + (A.nomCompute t nom.Stats.default).closures }) ∧
  (∀ (t : TSNode) (s : fn_args.Stats), A.nargsCompute t s =
    { s with
      fn_nargs := s.fn_nargs + (A.nargsCompute t fn_args.Stats.default).fn_nargs
      closure_nargs :=
        s.closure_nargs + (A.nargsCompute t fn_args.Stats.default).closure_nargs }) ∧
  (∀ (t : TSNode) (s : exit.Stats), A.exitCompute t s =
    { s with
      fn_nexits := s.fn_nexits + (A.exitCompute t exit.Stats.default).fn_nexits
      closure_nexits :=
        s.closure_nexits + (A.exitCompute t exit.Stats.default).closure_nexits })

/-- The counts a single visited node contributes to the accumulators of the
space it is attributed to: each hook applied to the default accumulator,
with the flags the traversal passes for that node. -/
def nodeDelta (A : Adapter) (t : TSNode) : CodeMetrics :=
  { cyclomatic := A.cyclomaticCompute t cyclomatic.Stats.default
    halstead := halstead.Stats.default
    loc := A.locCompute t loc.Stats.default (opener A t) (unitFlag A t)
    nom := A.nomCompute t nom.Stats.default
    mi := mi.Stats.default
    nargs := A.nargsCompute t fn_args.Stats.default
    nexits := A.exitCompute t exit.Stats.default }

/-- The metric selection runs every accumulator hook: either no selection
was given, or the selection is full. -/
def cmFull (cm : Option ChosenMetrics) : Prop :=
  cm = none ∨ ∃ m, cm = some m ∧ m.is_full = true

theorem nodeCompute_full (A : Adapter) (cm : Option ChosenMetrics)
    (hfull : cmFull cm) (t : TSNode) (fs u : Bool) (st : SBState) :
    nodeCompute A cm t fs u st = compute_all_metrics A t st fs u := by
  unfold nodeCompute
  rcases hfull with rfl | ⟨m, rfl, hm⟩
  · rfl
  · simp [hm]

theorem compute_all_proj (A : Adapter) (t : TSNode) (st : SBState) (fs u : Bool) :
    (compute_all_metrics A t st fs u).space.metrics.cyclomatic =
        A.cyclomaticCompute t st.space.metrics.cyclomatic ∧
    (compute_all_metrics A t st fs u).space.metrics.loc =
        A.locCompute t st.space.metrics.loc fs u ∧
    (compute_all_metrics A t st fs u).space.metrics.nom =
        A.nomCompute t st.space.metrics.nom ∧
    (compute_all_metrics A t st fs u).space.metrics.nargs =
        A.nargsCompute t st.space.metrics.nargs ∧
    (compute_all_metrics A t st fs u).space.metrics.nexits =
        A.exitCompute t st.space.metrics.nexits ∧
    (compute_all_metrics A t st fs u).space.metrics.halstead =
        st.space.metrics.halstead ∧
    (compute_all_metrics A t st fs u).space.metrics.mi = st.space.metrics.mi := by
  simp [compute_all_metrics]

theorem compute_hm_counters (A : Adapter) (cm : Option ChosenMetrics) (st : SBState) :
    (compute_hm A cm st).space.metrics.cyclomatic = st.space.metrics.cyclomatic ∧
    (compute_hm A cm st).space.metrics.loc = st.space.metrics.loc ∧
    (compute_hm A cm st).space.metrics.nom = st.space.metrics.nom ∧
    (compute_hm A cm st).space.metrics.nargs = st.space.metrics.nargs ∧
    (compute_hm A cm st).space.metrics.nexits = st.space.metrics.nexits := by
  unfold compute_hm
  split <;> split <;> simp

/-- Own contribution of a forest to the enclosing scope, for a per-node
count `g`: nodes reachable without entering a nested scope contribute
`g`, opener subtrees contribute nothing (their counts belong to the nested
scope). -/
def ownForest (A : Adapter) (g : TSNode → Nat) : List TSNode → Nat
  | [] => 0
  | t :: ts =>
    (if opener A t then 0 else g t + ownForest A g t.children) + ownForest A g ts
termination_by ts => TSNode.sizeForest ts
decreasing_by
  all_goals simp [TSNode.sizeForest, TSNode.size_eq]
  all_goals (have _h9 := TSNode.size_pos t; omega)

/-- Own contribution of the scope opened at `t`: the opener node itself plus
its forest, stopping at nested scopes. -/
def ownScope (A : Adapter) (g : TSNode → Nat) (t : TSNode) : Nat :=
  g t + ownForest A g t.children

/-- Sum of a counter over a list of spaces. -/
def sumSub (f : CodeMetrics → Nat) (l : List FuncSpace) : Nat :=
  (l.map (fun s => f s.metrics)).sum

theorem gen_closeInto (A : Adapter) (cm : Option ChosenMetrics)
    (f : CodeMetrics → Nat)
    (Hmerge : ∀ a b, f (CodeMetrics.merge a b) = f a + f b)
    (Hhm : ∀ st, f ((compute_hm A cm st).space.metrics) = f st.space.metrics)
    (st c : SBState) :
    f ((closeInto A cm st c).space.metrics) =
      f st.space.metrics + f c.space.metrics := by
  unfold closeInto
  simp only []
  rw [Hmerge]
  have h1 := Hhm { st with
    halstead_maps := st.halstead_maps.merge (compute_hm A cm c).halstead_maps }
  rw [h1, Hhm c]

theorem gen_procForest (A : Adapter) (cm : Option ChosenMetrics)
    (f : CodeMetrics → Nat) (g : TSNode → Nat)
    (Hmerge : ∀ a b, f (CodeMetrics.merge a b) = f a + f b)
    (Hhook : ∀ (t : TSNode) (st : SBState),
      f ((nodeCompute A cm t (opener A t) (unitFlag A t) st).space.metrics) =
        f st.space.metrics + g t)
    (Hhm : ∀ st, f ((compute_hm A cm st).space.metrics) = f st.space.metrics) :
    ∀ (n : Nat) (ts : List TSNode) (st : SBState), TSNode.sizeForest ts ≤ n →
    f ((procForest A cm ts st).space.metrics) =
      f st.space.metrics + ownForest A g ts +
        ((topOpeners A ts).map
          (fun u => f ((finalScope A cm u).space.metrics))).sum := by
  intro n
  induction n with
  | zero =>
    intro ts st hsz
    cases ts with
    | nil => simp [procForest_nil, topOpeners, ownForest]
    | cons t ts2 =>
      exfalso
      have := TSNode.size_pos t
      simp [TSNode.sizeForest] at hsz
      omega
  | succ n ih =>
    intro ts st hsz
    cases ts with
    | nil => simp [procForest_nil, topOpeners, ownForest]
    | cons t ts2 =>
      have hexp : TSNode.sizeForest (t :: ts2) =
          1 + TSNode.sizeForest t.children + TSNode.sizeForest ts2 := by
        simp only [TSNode.sizeForest, TSNode.size_eq]
      have hszc : TSNode.sizeForest t.children ≤ n := by omega
      have hszr : TSNode.sizeForest ts2 ≤ n := by omega
      rw [procForest_cons, ih ts2 _ hszr, topOpeners, ownForest]
      by_cases hop : opener A t = true
      · rw [procTree_opener A cm t st hop]
        rw [gen_closeInto A cm f Hmerge Hhm st (scopePre A cm t)]
        have hfin : f ((scopePre A cm t).space.metrics) =
            f ((finalScope A cm t).space.metrics) := (Hhm (scopePre A cm t)).symm
        simp [hop, hfin]
        omega
      · have hopf : opener A t = false := by
          revert hop; cases opener A t <;> simp
        rw [procTree_non_opener A cm t st hopf,
          ih t.children _ hszc, Hhook t st]
        simp [hopf]
        omega

/-- Generic cumulative-sum result: for any additive counter, a finished
scope's stored sum is its own contribution plus the sum over its stored
child spaces. -/
theorem gen_finalScope (A : Adapter) (cm : Option ChosenMetrics)
    (f : CodeMetrics → Nat) (g : TSNode → Nat)
    (Hmerge : ∀ a b, f (CodeMetrics.merge a b) = f a + f b)
    (Hhook : ∀ (t : TSNode) (st : SBState),
      f ((nodeCompute A cm t (opener A t) (unitFlag A t) st).space.metrics) =
        f st.space.metrics + g t)
    (Hhm : ∀ st, f ((compute_hm A cm st).space.metrics) = f st.space.metrics)
    (Hdef : f CodeMetrics.default = 0)
    (t : TSNode) :
    f ((finalScope A cm t).space.metrics) =
      ownScope A g t + sumSub f (finalScope A cm t).space.spaces := by
  have hsp : (finalScope A cm t).space.spaces =
      (topOpeners A t.children).map (fun u => (finalScope A cm u).space) := by
    have h1 : (finalScope A cm t).space.spaces = (scopePre A cm t).space.spaces :=
      (compute_hm_space_frame A cm _).1
    rw [h1, scopePre_eq,
      procForest_spaces A cm (TSNode.sizeForest t.children) t.children _ le_rfl]
    rw [(nodeCompute_space_frame A cm t (opener A t) (unitFlag A t)
      (newSBState A t)).1]
    simp [newSBState, FuncSpace.new]
  have h2 : f ((finalScope A cm t).space.metrics) =
      f ((scopePre A cm t).space.metrics) := Hhm _
  have h3 := gen_procForest A cm f g Hmerge Hhook Hhm
    (TSNode.sizeForest t.children) t.children
    (nodeCompute A cm t (opener A t) (unitFlag A t) (newSBState A t)) le_rfl
  have h4 : f ((nodeCompute A cm t (opener A t) (unitFlag A t)
      (newSBState A t)).space.metrics) = g t := by
    rw [Hhook]
    have : f ((newSBState A t).space.metrics) = 0 := by
      simpa [newSBState, FuncSpace.new] using Hdef
    omega
  rw [h2, scopePre_eq, h3, h4, hsp]
  unfold ownScope sumSub
  rw [List.map_map]
  simp [Function.comp_def]
  try omega

/-- C1: cumulative aggregation.  For every tree produced by `metrics` (full
metric set, space-opening root, additive hooks), and for every additive
counter of the branch, line, Nom, argument and exit-point metrics, each
space's stored sum equals the counts attributed to its own visited nodes
(`ownScope`: the opener node plus every node reachable without entering a
nested scope) plus the sum of the corresponding stored counters of its
child spaces — each closed child having been merged into its parent exactly
once, so sums are cumulative upward. -/
theorem c1_cumulative_aggregation (A : Adapter) (cm : Option ChosenMetrics)
    (root : TSNode) (path : Option ByteStr) (hadd : AdditiveHooks A)
    (hfull : cmFull cm) (hroot : opener A root = true) (hsz : root.size < 2 ^ 64) :
    metrics A cm root path =
      Except.ok (some { (finalScope A cm root).space with name := path }) ∧
    ∀ t : TSNode,
      ((finalScope A cm t).space.metrics.cyclomatic.sum =
        ownScope A (fun u => (nodeDelta A u).cyclomatic.sum) t +
        sumSub (fun m => m.cyclomatic.sum) (finalScope A cm t).space.spaces) ∧
      ((finalScope A cm t).space.metrics.loc.strict =
        ownScope A (fun u => (nodeDelta A u).loc.strict) t +
        sumSub (fun m => m.loc.strict) (finalScope A cm t).space.spaces) ∧
      ((finalScope A cm t).space.metrics.loc.physical =
        ownScope A (fun u => (nodeDelta A u).loc.physical) t +
        sumSub (fun m => m.loc.physical) (finalScope A cm t).space.spaces) ∧
      ((finalScope A cm t).space.metrics.loc.logical =
        ownScope A (fun u => (nodeDelta A u).loc.logical) t +
        sumSub (fun m => m.loc.logical) (finalScope A cm t).space.spaces) ∧
      ((finalScope A cm t).space.metrics.loc.comment =
        ownScope A (fun u => (nodeDelta A u).loc.comment) t +
        sumSub (fun m => m.loc.comment) (finalScope A cm t).space.spaces) ∧
      ((finalScope A cm t).space.metrics.loc.blank =
        ownScope A (fun u => (nodeDelta A u).loc.blank) t +
        sumSub (fun m => m.loc.blank) (finalScope A cm t).space.spaces) ∧
      ((finalScope A cm t).space.metrics.nom.functions =
        ownScope A (fun u => (nodeDelta A u).nom.functions) t +
        sumSub (fun m => m.nom.functions) (finalScope A cm t).space.spaces) ∧
      ((finalScope A cm t).space.metrics.nom.closures =
        ownScope A (fun u => (nodeDelta A u).nom.closures) t +
        sumSub (fun m => m.nom.closures) (finalScope A cm t).space.spaces) ∧
      ((finalScope A cm t).space.metrics.nargs.fn_nargs =
        ownScope A (fun u => (nodeDelta A u).nargs.fn_nargs) t +
        sumSub (fun m => m.nargs.fn_nargs) (finalScope A cm t).space.spaces) ∧
      ((finalScope A cm t).space.metrics.nargs.closure_nargs =
        ownScope A (fun u => (nodeDelta A u).nargs.closure_nargs) t +
        sumSub (fun m => m.nargs.closure_nargs) (finalScope A cm t).space.spaces) ∧
      ((finalScope A cm t).space.metrics.nexits.fn_nexits =
        ownScope A (fun u => (nodeDelta A u).nexits.fn_nexits) t +
        sumSub (fun m => m.nexits.fn_nexits) (finalScope A cm t).space.spaces) ∧
      ((finalScope A cm t).space.metrics.nexits.closure_nexits =
        ownScope A (fun u => (nodeDelta A u).nexits.closure_nexits) t +
        sumSub (fun m => m.nexits.closure_nexits)
          (finalScope A cm t).space.spaces) := by
  obtain ⟨hc, hl, hn, ha, he⟩ := hadd
  refine ⟨metrics_eq_spec A cm root path hroot hsz, ?_⟩
  intro t
  refine ⟨?_, ?_, ?_, ?_, ?_, ?_, ?_, ?_, ?_, ?_, ?_, ?_⟩
  · exact gen_finalScope A cm (fun m => m.cyclomatic.sum)
      (fun u => (nodeDelta A u).cyclomatic.sum)
      (by intro a b; simp [CodeMetrics.merge, cyclomatic.Stats.merge])
      (by
        intro t2 st
        beta_reduce
        rw [nodeCompute_full A cm hfull, (compute_all_proj A t2 st _ _).1, hc]
        simp [nodeDelta])
      (by intro st; beta_reduce; rw [(compute_hm_counters A cm st).1])
      rfl t
  · exact gen_finalScope A cm (fun m => m.loc.strict)
      (fun u => (nodeDelta A u).loc.strict)
      (by intro a b; simp [CodeMetrics.merge, loc.Stats.merge])
      (by
        intro t2 st
        beta_reduce
        rw [nodeCompute_full A cm hfull, (compute_all_proj A t2 st _ _).2.1, hl]
        simp [nodeDelta])
      (by intro st; beta_reduce; rw [(compute_hm_counters A cm st).2.1])
      rfl t
  · exact gen_finalScope A cm (fun m => m.loc.physical)
      (fun u => (nodeDelta A u).loc.physical)
      (by intro a b; simp [CodeMetrics.merge, loc.Stats.merge])
      (by
        intro t2 st
        beta_reduce
        rw [nodeCompute_full A cm hfull, (compute_all_proj A t2 st _ _).2.1, hl]
        simp [nodeDelta])
      (by intro st; beta_reduce; rw [(compute_hm_counters A cm st).2.1])
      rfl t
  · exact gen_finalScope A cm (fun m => m.loc.logical)
      (fun u => (nodeDelta A u).loc.logical)
      (by intro a b; simp [CodeMetrics.merge, loc.Stats.merge])
      (by
        intro t2 st
        beta_reduce
        rw [nodeCompute_full A cm hfull, (compute_all_proj A t2 st _ _).2.1, hl]
        simp [nodeDelta])
      (by intro st; beta_reduce; rw [(compute_hm_counters A cm st).2.1])
      rfl t
  · exact gen_finalScope A cm (fun m => m.loc.comment)
      (fun u => (nodeDelta A u).loc.comment)
      (by intro a b; simp [CodeMetrics.merge, loc.Stats.merge])
      (by
        intro t2 st
        beta_reduce
        rw [nodeCompute_full A cm hfull, (compute_all_proj A t2 st _ _).2.1, hl]
        simp [nodeDelta])
      (by intro st; beta_reduce; rw [(compute_hm_counters A cm st).2.1])
      rfl t
  · exact gen_finalScope A cm (fun m => m.loc.blank)
      (fun u => (nodeDelta A u).loc.blank)
      (by intro a b; simp [CodeMetrics.merge, loc.Stats.merge])
      (by
        intro t2 st
        beta_reduce
        rw [nodeCompute_full A cm hfull, (compute_all_proj A t2 st _ _).2.1, hl]
        simp [nodeDelta])
      (by intro st; beta_reduce; rw [(compute_hm_counters A cm st).2.1])
      rfl t
  · exact gen_finalScope A cm (fun m => m.nom.functions)
      (fun u => (nodeDelta A u).nom.functions)
      (by intro a b; simp [CodeMetrics.merge, nom.Stats.merge])
      (by
        intro t2 st
        beta_reduce
        rw [nodeCompute_full A cm hfull, (compute_all_proj A t2 st _ _).2.2.1, hn]
        simp [nodeDelta])
      (by intro st; beta_reduce; rw [(compute_hm_counters A cm st).2.2.1])
      rfl t
  · exact gen_finalScope A cm (fun m => m.nom.closures)
      (fun u => (nodeDelta A u).nom.closures)
      (by intro a b; simp [CodeMetrics.merge, nom.Stats.merge])
      (by
        intro t2 st
        beta_reduce
        rw [nodeCompute_full A cm hfull, (compute_all_proj A t2 st _ _).2.2.1, hn]
        simp [nodeDelta])
      (by intro st; beta_reduce; rw [(compute_hm_counters A cm st).2.2.1])
      rfl t
  · exact gen_finalScope A cm (fun m => m.nargs.fn_nargs)
      (fun u => (nodeDelta A u).nargs.fn_nargs)
      (by intro a b; simp [CodeMetrics.merge, fn_args.Stats.merge])
      (by
        intro t2 st
        beta_reduce
        rw [nodeCompute_full A cm hfull, (compute_all_proj A t2 st _ _).2.2.2.1, ha]
        simp [nodeDelta])
      (by intro st; beta_reduce; rw [(compute_hm_counters A cm st).2.2.2.1])
      rfl t
  · exact gen_finalScope A cm (fun m => m.nargs.closure_nargs)
      (fun u => (nodeDelta A u).nargs.closure_nargs)
      (by intro a b; simp [CodeMetrics.merge, fn_args.Stats.merge])
      (by
        intro t2 st
        beta_reduce
        rw [nodeCompute_full A cm hfull, (compute_all_proj A t2 st _ _).2.2.2.1, ha]
        simp [nodeDelta])
      (by intro st; beta_reduce; rw [(compute_hm_counters A cm st).2.2.2.1])
      rfl t
  · exact gen_finalScope A cm (fun m => m.nexits.fn_nexits)
      (fun u => (nodeDelta A u).nexits.fn_nexits)
      (by intro a b; simp [CodeMetrics.merge, exit.Stats.merge])
      (by
        intro t2 st
        beta_reduce
        rw [nodeCompute_full A cm hfull, (compute_all_proj A t2 st _ _).2.2.2.2.1, he]
        simp [nodeDelta])
      (by intro st; beta_reduce; rw [(compute_hm_counters A cm st).2.2.2.2])
      rfl t
  · exact gen_finalScope A cm (fun m => m.nexits.closure_nexits)
      (fun u => (nodeDelta A u).nexits.closure_nexits)
      (by intro a b; simp [CodeMetrics.merge, exit.Stats.merge])
      (by
        intro t2 st
        beta_reduce
        rw [nodeCompute_full A cm hfull, (compute_all_proj A t2 st _ _).2.2.2.2.1, he]
        simp [nodeDelta])
      (by intro st; beta_reduce; rw [(compute_hm_counters A cm st).2.2.2.2])
      rfl t

theorem opsDemoAdapter_additive : AdditiveHooks opsDemoAdapter := by
  refine ⟨?_, ?_, ?_, ?_, ?_⟩
  · intro t s; cases s; simp [opsDemoAdapter, cyclomatic.Stats.default]
  · intro t s fs u; cases s; simp [opsDemoAdapter, loc.Stats.default]
  · intro t s; cases s; simp [opsDemoAdapter, nom.Stats.default]
  · intro t s; cases s; simp [opsDemoAdapter, fn_args.Stats.default]
  · intro t s; cases s; simp [opsDemoAdapter, exit.Stats.default]

/-- Witness for C1 at a concrete adapter and tree, on the exit-point
counter. -/
theorem c1_cumulative_aggregation_witness :
    (finalScope opsDemoAdapter none opsDemoTree).space.metrics.nexits.fn_nexits =
      ownScope opsDemoAdapter
        (fun u => (nodeDelta opsDemoAdapter u).nexits.fn_nexits) opsDemoTree +
      sumSub (fun m => m.nexits.fn_nexits)
        (finalScope opsDemoAdapter none opsDemoTree).space.spaces := by
  have h := (c1_cumulative_aggregation opsDemoAdapter none opsDemoTree none
    opsDemoAdapter_additive (Or.inl rfl) rfl
    (by norm_num [show TSNode.size opsDemoTree = 4 from rfl])).2 opsDemoTree
  exact h.2.2.2.2.2.2.2.2.2.2.1
